import Mathlib

/-!
Verification of the swiss-draw tournament matching system.

The repository is a Google-Apps-Script spreadsheet application with two
variants sharing one rematch-avoidance pairing core:

* a continuous "gunslinger" variant (`core.js`, `match-manager.js`,
  `player-utils.js`, `sheet-utils.js`) pairing WAITING players whenever
  possible, and
* a Swiss-rounds variant (`match-domain.js`, `round-manager.js`,
  `constants.js`) pairing ACTIVE players once per round.

The spreadsheet tables (player sheet, match-history sheet, in-progress
sheet) are modelled as Lean lists of structures; the process-wide
properties store (current round, max tables) as fields of the state.
JS numbers are modelled as `Nat` (counters, timestamps, table numbers)
and `Rat` (win rates); `Math.max(0, x - 1)` on a `Nat`-valued cell is
exactly truncated subtraction.  `Math.random`-based shuffling is modelled
by an explicit permutation parameter.  The array sorts (`Array.sort` with
a comparator, which JS requires to be stable) are modelled by a stable
insertion sort over the same comparator.
-/

namespace SwissDraw

/-- Insert into a JS `Set` (kept as an insertion-ordered duplicate-free list). -/
def addUniq (l : List String) (x : String) : List String :=
  if x ∈ l then l else l ++ [x]

/-- Apply `g` to the first element satisfying `p` (the JS find-then-break
update loops over sheet rows); also reports whether an element was found. -/
def updateFirst (p : α → Bool) (g : α → α) : List α → List α × Bool
  | [] => ([], false)
  | x :: xs =>
    if p x then (g x :: xs, true)
    else
      let r := updateFirst p g xs
      (x :: r.1, r.2)

/-- Index of the first element satisfying `p` (find-with-break over rows). -/
def findFirstIdx (p : α → Bool) : List α → Option Nat
  | [] => none
  | x :: xs => if p x then some 0 else (findFirstIdx p xs).map (· + 1)

/-- `Utilities.formatString("%04d", n)`: decimal, left-padded to 4 digits. -/
def pad4 (n : Nat) : String :=
  let s := toString n
  String.mk (List.replicate (4 - s.length) '0') ++ s

/-- Stable insertion step: `x` goes after every already-placed element that
the comparator keeps before it. -/
def insertSorted (le : α → α → Bool) (x : α) : List α → List α
  | [] => [x]
  | y :: ys => if le y x then y :: insertSorted le x ys else x :: y :: ys

/-- Stable sort by a boolean comparator (models `Array.prototype.sort`,
which ECMAScript requires to be stable; any stable sort computes the same
list for a total transitive comparator). -/
def sortBy (le : α → α → Bool) (l : List α) : List α :=
  l.foldl (fun acc x => insertSorted le x acc) []

theorem updateFirst_fst_length (p : α → Bool) (g : α → α) (l : List α) :
    (updateFirst p g l).1.length = l.length := by
  induction l with
  | nil => rfl
  | cons x xs ih =>
    unfold updateFirst
    split <;> simp [ih]

theorem findFirstIdx_lt_length {p : α → Bool} {l : List α} {i : Nat}
    (h : findFirstIdx p l = some i) : i < l.length := by
  induction l generalizing i with
  | nil => simp [findFirstIdx] at h
  | cons x xs ih =>
    unfold findFirstIdx at h
    split at h
    · cases h; simp
    · rcases Option.map_eq_some'.mp h with ⟨j, hj, rfl⟩
      exact Nat.succ_lt_succ (ih hj)

theorem insertSorted_perm (le : α → α → Bool) (x : α) (l : List α) :
    (insertSorted le x l).Perm (x :: l) := by
  induction l with
  | nil => exact List.Perm.refl _
  | cons y ys ih =>
    unfold insertSorted
    split
    · exact (ih.cons y).trans (List.Perm.swap x y ys)
    · exact List.Perm.refl _

theorem sortBy_perm (le : α → α → Bool) (l : List α) :
    (sortBy le l).Perm l := by
  suffices h : ∀ acc : List α,
      (l.foldl (fun acc x => insertSorted le x acc) acc).Perm (acc ++ l) by
    simpa using h []
  induction l with
  | nil => simp
  | cons x xs ih =>
    intro acc
    simp only [List.foldl_cons]
    refine (ih _).trans ?_
    have h1 : (insertSorted le x acc ++ xs).Perm ((x :: acc) ++ xs) :=
      (insertSorted_perm le x acc).append_right xs
    refine h1.trans ?_
    show (x :: (acc ++ xs)).Perm (acc ++ x :: xs)
    exact List.perm_middle.symm

theorem insertSorted_pairwise {le : α → α → Bool}
    (hto : ∀ a b, le a b = true ∨ le b a = true)
    (htr : ∀ a b c, le a b = true → le b c = true → le a c = true)
    {x : α} {l : List α} (hl : l.Pairwise (le · · = true)) :
    (insertSorted le x l).Pairwise (le · · = true) := by
  induction l with
  | nil => simp [insertSorted]
  | cons y ys ih =>
    rcases List.pairwise_cons.mp hl with ⟨hy, hys⟩
    unfold insertSorted
    split
    · refine List.pairwise_cons.mpr ⟨?_, ih hys⟩
      intro z hz
      rcases List.mem_cons.mp ((insertSorted_perm le x ys).mem_iff.mp hz) with
        rfl | hzys
      · assumption
      · exact hy z hzys
    · refine List.pairwise_cons.mpr ⟨?_, hl⟩
      intro z hz
      rcases List.mem_cons.mp hz with rfl | hzys
      · rcases hto x z with h | h
        · exact h
        · exact absurd h (by assumption)
      · rcases hto x z with h | h
        · exact h
        · have hyx : le y x = true := htr _ _ _ (hy z hzys) h
          exact absurd hyx (by assumption)

theorem sortBy_pairwise {le : α → α → Bool}
    (hto : ∀ a b, le a b = true ∨ le b a = true)
    (htr : ∀ a b c, le a b = true → le b c = true → le a c = true)
    (l : List α) : (sortBy le l).Pairwise (le · · = true) := by
  suffices h : ∀ acc : List α, acc.Pairwise (le · · = true) →
      (l.foldl (fun acc x => insertSorted le x acc) acc).Pairwise (le · · = true) by
    exact h [] (by simp)
  induction l with
  | nil => intro acc hacc; simpa using hacc
  | cons x xs ih =>
    intro acc hacc
    simp only [List.foldl_cons]
    exact ih _ (insertSorted_pairwise hto htr hacc)

/-- In a list sorted (descending-priority first) by `le`, every element is
kept at-or-before the last element: the last element is ranked lowest. -/
theorem sorted_le_getLast {le : α → α → Bool}
    (hrefl : ∀ a, le a a = true)
    {l : List α} (hl : l.Pairwise (le · · = true)) (hne : l ≠ [])
    {p : α} (hp : p ∈ l) : le p (l.getLast hne) = true := by
  obtain ⟨i, hi, rfl⟩ := List.mem_iff_getElem.mp hp
  have hpos : 0 < l.length := List.length_pos.mpr hne
  have hlast : l.getLast hne = l[l.length - 1] := List.getLast_eq_getElem l hne
  rw [hlast]
  rcases Nat.lt_or_ge i (l.length - 1) with hlt | hge
  · exact List.pairwise_iff_getElem.mp hl i (l.length - 1) hi (by omega) hlt
  · have hieq : i = l.length - 1 := by omega
    subst hieq
    exact hrefl _

-- =========================================
-- Rematch-avoidance pairing core
-- =========================================

/-- One inner scan of the pairing loop: run through the remaining players in
order, return the first one whose id is not in `blacklist` together with the
list with that player spliced out (`findIdx` + `splice(i,1)` in the source). -/
def pickOpponent (pid : α → String) (blacklist : List String) :
    List α → Option (α × List α)
  | [] => none
  | q :: rest =>
    if pid q ∈ blacklist then
      match pickOpponent pid blacklist rest with
      | some (r, rem) => some (r, q :: rem)
      | none => none
    else
      some (q, rest)

theorem pickOpponent_length {pid : α → String} {bl : List String}
    {l rem : List α} {r : α} (h : pickOpponent pid bl l = some (r, rem)) :
    rem.length + 1 = l.length := by
  induction l generalizing rem r with
  | nil => simp [pickOpponent] at h
  | cons q rest ih =>
    unfold pickOpponent at h
    split at h
    · cases hr : pickOpponent pid bl rest with
      | none => rw [hr] at h; cases h
      | some pr =>
        rw [hr] at h
        cases pr with
        | mk r' rem' =>
          cases h
          simpa using ih hr
    · cases h
      rfl

theorem pickOpponent_not_blacklisted {pid : α → String} {bl : List String}
    {l rem : List α} {r : α} (h : pickOpponent pid bl l = some (r, rem)) :
    pid r ∉ bl := by
  induction l generalizing rem r with
  | nil => simp [pickOpponent] at h
  | cons q rest ih =>
    unfold pickOpponent at h
    split at h
    · cases hr : pickOpponent pid bl rest with
      | none => rw [hr] at h; cases h
      | some pr =>
        rw [hr] at h
        cases pr with
        | mk r' rem' =>
          cases h
          exact ih hr
    · cases h
      simpa using ‹¬ pid q ∈ bl›

theorem pickOpponent_perm {pid : α → String} {bl : List String}
    {l rem : List α} {r : α} (h : pickOpponent pid bl l = some (r, rem)) :
    l.Perm (r :: rem) := by
  induction l generalizing rem r with
  | nil => simp [pickOpponent] at h
  | cons q rest ih =>
    unfold pickOpponent at h
    split at h
    · cases hr : pickOpponent pid bl rest with
      | none => rw [hr] at h; cases h
      | some pr =>
        rw [hr] at h
        cases pr with
        | mk r' rem' =>
          cases h
          exact ((ih hr).cons q).trans (List.Perm.swap _ _ _)
    · cases h
      exact List.Perm.refl _

/-- The shared pairing loop, structurally recursive on a fuel bound (the
loops in the source terminate because each iteration shortens the worklist;
any fuel at least the list length computes the loop's value).  `swiss = false`
gives the continuous variant's loop (`matchPlayers`): a player with no fresh
opponent is pushed onto the skipped list and the loop continues.
`swiss = true` gives the Swiss variant's loop (`matchPlayersSwiss`): when the
first player has no fresh opponent the loop `break`s, leaving the rest of the
worklist unpaired (and the first player in neither output). -/
def pairLoopAux (swiss : Bool) (pid : α → String) (opp : String → List String) :
    Nat → List α → List (String × String) × List α
  | _, [] => ([], [])
  | _, [p] => ([], [p])
  | 0, l => ([], l)
  | fuel + 1, p1 :: q :: rest =>
    match pickOpponent pid (opp (pid p1)) (q :: rest) with
    | some (p2, rem) =>
      let r := pairLoopAux swiss pid opp fuel rem
      ((pid p1, pid p2) :: r.1, r.2)
    | none =>
      cond swiss ([], q :: rest)
        (let r := pairLoopAux swiss pid opp fuel (q :: rest)
         (r.1, p1 :: r.2))

/-- `while (availablePlayers.length >= 2) { ... }` of the continuous
variant's `matchPlayers`. -/
def contPairLoop (pid : α → String) (opp : String → List String)
    (l : List α) : List (String × String) × List α :=
  pairLoopAux false pid opp l.length l

/-- `while (remainingPlayers.length >= 2) { ... }` of `matchPlayersSwiss`. -/
def swissPairLoop (pid : α → String) (opp : String → List String)
    (l : List α) : List (String × String) × List α :=
  pairLoopAux true pid opp l.length l

theorem pairLoopAux_cons (swiss : Bool) (pid : α → String)
    (opp : String → List String) (fuel : Nat) (p1 q : α) (rest : List α) :
    pairLoopAux swiss pid opp (fuel + 1) (p1 :: q :: rest) =
      match pickOpponent pid (opp (pid p1)) (q :: rest) with
      | some (p2, rem) =>
        let r := pairLoopAux swiss pid opp fuel rem
        ((pid p1, pid p2) :: r.1, r.2)
      | none =>
        cond swiss ([], q :: rest)
          (let r := pairLoopAux swiss pid opp fuel (q :: rest)
           (r.1, p1 :: r.2)) := by
  rfl

theorem pairLoopAux_zero (swiss : Bool) (pid : α → String)
    (opp : String → List String) (p1 q : α) (rest : List α) :
    pairLoopAux swiss pid opp 0 (p1 :: q :: rest) = ([], p1 :: q :: rest) :=
  rfl

theorem pairLoopAux_fuel_irrel (swiss : Bool) (pid : α → String)
    (opp : String → List String) :
    ∀ n m (l : List α), l.length ≤ n → l.length ≤ m →
      pairLoopAux swiss pid opp n l = pairLoopAux swiss pid opp m l := by
  intro n
  induction n with
  | zero =>
    intro m l hn _
    have hnil : l = [] := List.length_eq_zero.mp (Nat.le_zero.mp hn)
    subst hnil
    cases m <;> rfl
  | succ n ih =>
    intro m l hn hm
    match l with
    | [] => cases m <;> rfl
    | [p] => cases m <;> rfl
    | p1 :: q :: rest =>
      obtain ⟨m', rfl⟩ : ∃ m', m = m' + 1 :=
        ⟨m - 1, by simp only [List.length_cons] at hm; omega⟩
      rw [pairLoopAux_cons, pairLoopAux_cons]
      cases hpk : pickOpponent pid (opp (pid p1)) (q :: rest) with
      | some pr =>
        cases pr with
        | mk p2 rem =>
          have hlen : rem.length + 1 = rest.length + 1 := pickOpponent_length hpk
          have h1 : rem.length ≤ n := by
            simp only [List.length_cons] at hn
            omega
          have h2 : rem.length ≤ m' := by
            simp only [List.length_cons] at hm
            omega
          simp [ih m' rem h1 h2]
      | none =>
        cases swiss with
        | true => simp
        | false =>
          have h1 : (q :: rest).length ≤ n := by
            simp only [List.length_cons] at hn ⊢
            omega
          have h2 : (q :: rest).length ≤ m' := by
            simp only [List.length_cons] at hm ⊢
            omega
          simp [ih m' (q :: rest) h1 h2]

theorem contPairLoop_cons_some {pid : α → String} {opp : String → List String}
    {p1 q : α} {rest rem : List α} {p2 : α}
    (h : pickOpponent pid (opp (pid p1)) (q :: rest) = some (p2, rem)) :
    contPairLoop pid opp (p1 :: q :: rest) =
      ((pid p1, pid p2) :: (contPairLoop pid opp rem).1,
        (contPairLoop pid opp rem).2) := by
  have hlen : rem.length + 1 = rest.length + 1 := pickOpponent_length h
  unfold contPairLoop
  simp only [List.length_cons]
  rw [pairLoopAux_cons, h]
  simp only
  rw [pairLoopAux_fuel_irrel false pid opp (rest.length + 1) rem.length rem
    (by omega) (le_refl _)]

theorem contPairLoop_cons_none {pid : α → String} {opp : String → List String}
    {p1 q : α} {rest : List α}
    (h : pickOpponent pid (opp (pid p1)) (q :: rest) = none) :
    contPairLoop pid opp (p1 :: q :: rest) =
      ((contPairLoop pid opp (q :: rest)).1,
        p1 :: (contPairLoop pid opp (q :: rest)).2) := by
  unfold contPairLoop
  simp only [List.length_cons]
  rw [pairLoopAux_cons, h]
  simp

theorem swissPairLoop_cons_none {pid : α → String} {opp : String → List String}
    {p1 q : α} {rest : List α}
    (h : pickOpponent pid (opp (pid p1)) (q :: rest) = none) :
    swissPairLoop pid opp (p1 :: q :: rest) = ([], q :: rest) := by
  unfold swissPairLoop
  simp only [List.length_cons]
  rw [pairLoopAux_cons, h]
  rfl

/-- No pair emitted by either pairing loop is a rematch: the second player
of a pair is never on the first player's blacklist. -/
theorem pairLoopAux_no_rematch (swiss : Bool) (pid : α → String)
    (opp : String → List String) :
    ∀ n (l : List α) pr, pr ∈ (pairLoopAux swiss pid opp n l).1 →
      pr.2 ∉ opp pr.1 := by
  intro n
  induction n with
  | zero =>
    intro l pr hpr
    match l with
    | [] => simp [pairLoopAux] at hpr
    | [p] => simp [pairLoopAux] at hpr
    | p1 :: q :: rest => simp [pairLoopAux] at hpr
  | succ n ih =>
    intro l pr hpr
    match l with
    | [] => simp [pairLoopAux] at hpr
    | [p] => simp [pairLoopAux] at hpr
    | p1 :: q :: rest =>
      rw [pairLoopAux_cons] at hpr
      cases hpk : pickOpponent pid (opp (pid p1)) (q :: rest) with
      | some prr =>
        cases prr with
        | mk p2 rem =>
          rw [hpk] at hpr
          simp only at hpr
          rcases List.mem_cons.mp hpr with rfl | hm
          · simpa using pickOpponent_not_blacklisted hpk
          · exact ih rem pr hm
      | none =>
        rw [hpk] at hpr
        cases swiss with
        | true => simp at hpr
        | false => exact ih (q :: rest) pr hpr

/-- Completeness of the continuous loop: every player on the worklist ends
up either named in an emitted pair or on the skipped list. -/
theorem contPairLoop_complete (pid : α → String) (opp : String → List String) :
    ∀ n (l : List α) p, p ∈ l →
      (∃ pr ∈ (pairLoopAux false pid opp n l).1,
          pid p = pr.1 ∨ pid p = pr.2) ∨
        p ∈ (pairLoopAux false pid opp n l).2 := by
  intro n
  induction n with
  | zero =>
    intro l p hp
    match l with
    | [] => simp at hp
    | [q] => right; simpa [pairLoopAux] using hp
    | p1 :: q :: rest => right; simpa [pairLoopAux] using hp
  | succ n ih =>
    intro l p hp
    match l with
    | [] => simp at hp
    | [q] => right; simpa [pairLoopAux] using hp
    | p1 :: q :: rest =>
      rw [pairLoopAux_cons]
      cases hpk : pickOpponent pid (opp (pid p1)) (q :: rest) with
      | some prr =>
        cases prr with
        | mk p2 rem =>
          dsimp only
          rcases List.mem_cons.mp hp with rfl | hqrest
          · exact Or.inl ⟨(pid p, pid p2), List.mem_cons_self _ _, Or.inl rfl⟩
          · rcases List.mem_cons.mp
              ((pickOpponent_perm hpk).mem_iff.mp hqrest) with rfl | hrem
            · exact Or.inl ⟨(pid p1, pid p), List.mem_cons_self _ _, Or.inr rfl⟩
            · rcases ih rem p hrem with ⟨pr, hpr, hside⟩ | hskip
              · exact Or.inl ⟨pr, List.mem_cons_of_mem _ hpr, hside⟩
              · exact Or.inr hskip
      | none =>
        dsimp only [Bool.cond_false]
        rcases List.mem_cons.mp hp with rfl | hqrest
        · exact Or.inr (List.mem_cons_self _ _)
        · rcases ih (q :: rest) p hqrest with ⟨pr, hpr, hside⟩ | hskip
          · exact Or.inl ⟨pr, hpr, hside⟩
          · exact Or.inr (List.mem_cons_of_mem _ hskip)

-- =========================================
-- Data model shared by both variants
-- =========================================

/-- Player status cell values: 待機/対戦中 (continuous variant), 参加中
(Swiss variant), 終了 (both). -/
inductive PStatus where
  | waiting
  | inProgress
  | active
  | dropped
deriving DecidableEq, Repr

/-- A row of the player sheet.  The continuous variant uses the columns
id / wins / losses / games / status / last-match; the Swiss variant adds
name, points and OMW%.  One structure serves both variants; functions read
only the columns their sheet has. -/
structure Player where
  pid : String
  name : String
  points : Nat
  wins : Nat
  losses : Nat
  total : Nat
  omw : Rat
  status : PStatus
  lastMatch : Nat
deriving DecidableEq, Repr

instance : Inhabited Player :=
  ⟨{ pid := "", name := "", points := 0, wins := 0, losses := 0, total := 0,
     omw := 0, status := PStatus.waiting, lastMatch := 0 }⟩

-- =========================================
-- Continuous variant (core.js, player-utils.js)
-- =========================================

/-- A row of the continuous variant's history sheet
(time, player-1 id, player-2 id, winner id, match id). -/
structure CHist where
  time : Nat
  p1 : String
  p2 : String
  winner : String
  mid : String
deriving DecidableEq, Repr

/-- `getPastOpponents` (player-utils.js): the ids appearing opposite
`playerId` in any history row (this variant's history has no bye rows). -/
def getPastOpponents (hist : List CHist) (playerId : String) : List String :=
  hist.foldl (fun acc row =>
    if row.p1 = playerId then addUniq acc row.p2
    else if row.p2 = playerId then addUniq acc row.p1
    else acc) []

/-- Comparator of `getWaitingPlayers`: wins descending, then last-match
timestamp descending (most recent winner first). -/
def contLe (a b : Player) : Bool :=
  decide (b.wins < a.wins) ||
    (decide (a.wins = b.wins) && decide (b.lastMatch ≤ a.lastMatch))

/-- `getWaitingPlayers` (player-utils.js): the rows in status 待機, sorted
by `contLe`. -/
def getWaitingPlayers (players : List Player) : List Player :=
  sortBy contLe (players.filter (fun p => p.status = PStatus.waiting))

/-- State of the continuous variant: player sheet, history sheet and the
two-column in-progress sheet. -/
structure CState where
  players : List Player
  hist : List CHist
  inProg : List (String × String)
deriving DecidableEq, Repr

/-- `matchPlayers` (core.js): sort the waiting players, run the pairing
loop against the history as of the start of the invocation, set every
paired player's status to 対戦中 and append the pairs to the in-progress
sheet.  Returns the updated state and the number of pairs made. -/
def matchPlayers (st : CState) : CState × Nat :=
  let waiting := getWaitingPlayers st.players
  if waiting.length < 2 then (st, 0)
  else
    let r := contPairLoop Player.pid (getPastOpponents st.hist) waiting
    let ms := r.1
    if ms = [] then (st, 0)
    else
      let ids := ms.foldr (fun pr acc => pr.1 :: pr.2 :: acc) ([] : List String)
      let players1 := st.players.map (fun p =>
        if p.pid ∈ ids then { p with status := PStatus.inProgress } else p)
      ({ st with players := players1, inProg := st.inProg ++ ms }, ms.length)

-- =========================================
-- Swiss variant (constants.js, match-domain.js, round-manager.js)
-- =========================================

/-- `SWISS_CONFIG` and `TABLE_CONFIG` (constants.js). -/
def POINTS_WIN : Nat := 3

def POINTS_DRAW : Nat := 0

def POINTS_LOSS : Nat := 0

def POINTS_BYE : Nat := 3

def MIN_TABLE_NUMBER : Nat := 1

/-- A row of the Swiss history sheet (match id, round, time, table,
player-1 id, player-1 name, player-2 id, player-2 name, winner name,
result). -/
structure HistRow where
  mid : String
  round : Nat
  time : Nat
  table : Nat
  p1 : String
  n1 : String
  p2 : String
  n2 : String
  winnerName : String
  result : String
deriving DecidableEq, Repr

instance : Inhabited HistRow :=
  ⟨{ mid := "", round := 0, time := 0, table := 0, p1 := "", n1 := "",
     p2 := "", n2 := "", winnerName := "", result := "" }⟩

/-- A row of the current-round sheet (round, table, player-1 id,
player-1 name, player-2 id, player-2 name, result). -/
structure RoundRow where
  round : Nat
  table : Nat
  p1 : String
  n1 : String
  p2 : String
  n2 : String
  result : String
deriving DecidableEq, Repr

/-- Swiss-variant state: the three sheets plus the document-properties
store (`CURRENT_ROUND` and `MAX_TABLES`). -/
structure SState where
  players : List Player
  hist : List HistRow
  inProg : List RoundRow
  currentRound : Nat
  maxTables : Nat
deriving DecidableEq, Repr

/-- `getPlayerName` (takes the first matching player row, falling back to
the id when the player is missing or the name cell is empty). -/
def getPlayerName (players : List Player) (playerId : String) : String :=
  match players.find? (fun p => p.pid = playerId) with
  | some p => if p.name = "" then playerId else p.name
  | none => playerId

/-- The player-name map built at the start of `matchPlayersSwiss`
(a JS `Map` keeps the LAST binding of a key; rows with an empty id are
skipped; `map.get(id) || id` falls back to the id on a missing entry or an
empty name). -/
def swissNameOf (players : List Player) (playerId : String) : String :=
  match (players.filter (fun p => p.pid ≠ "")).reverse.find?
      (fun p => p.pid = playerId) with
  | some p => if p.name = "" then playerId else p.name
  | none => playerId

/-- The past-opponents index built at the start of `matchPlayersSwiss`:
symmetric over all history rows, skipping bye rows and rows with an empty
player id. -/
def swissOpp (hist : List HistRow) (pid : String) : List String :=
  hist.foldl (fun acc row =>
    if row.result = "Bye" ∨ row.p1 = "" ∨ row.p2 = "" then acc
    else if row.p1 = pid then addUniq acc row.p2
    else if row.p2 = pid then addUniq acc row.p1
    else acc) []

/-- Comparator of the active-player sort in `matchPlayersSwiss`: points
descending, then wins descending, then games played ascending (so that a
previous bye recipient sinks in its group). -/
def swissLe (a b : Player) : Bool :=
  decide (b.points < a.points) ||
    (decide (a.points = b.points) &&
      (decide (b.wins < a.wins) ||
        (decide (a.wins = b.wins) && decide (a.total ≤ b.total))))

/-- `recordByeResult` (match-domain.js): add `POINTS_BYE` points, one win
and one played game to the bye player, stamp the last-match time and
append one bye history record (result `"Bye"`, empty opponent columns)
carrying the given table number.  When the player id is not on the sheet
the update loop never fires and nothing changes. -/
def recordByeResult (playerId : String) (roundNumber tableNumber now : Nat)
    (st : SState) : SState :=
  let playerName := getPlayerName st.players playerId
  let r := updateFirst (fun p => p.pid = playerId)
    (fun p => { p with
      points := p.points + POINTS_BYE
      wins := p.wins + 1
      total := p.total + 1
      lastMatch := now }) st.players
  if r.2 then
    { st with
      players := r.1
      hist := st.hist ++ [{
        mid := "T" ++ pad4 (st.hist.length + 1)
        round := roundNumber
        time := now
        table := tableNumber
        p1 := playerId
        n1 := playerName
        p2 := ""
        n2 := ""
        winnerName := playerName
        result := "Bye" }] }
  else st

/-- The rows `matchPlayersSwiss` appends for its emitted pairs: consecutive
table numbers starting at `MIN_TABLE_NUMBER`, names from the player-name
map, empty result. -/
def seatSwissPairs (st : SState) (roundNumber : Nat)
    (ms : List (String × String)) : List RoundRow :=
  ((List.range ms.length).zip ms).map (fun e =>
    { round := roundNumber
      table := MIN_TABLE_NUMBER + e.1
      p1 := e.2.1
      n1 := swissNameOf st.players e.2.1
      p2 := e.2.2
      n2 := swissNameOf st.players e.2.2
      result := "" : RoundRow })

/-- The row `matchPlayersSwiss` appends for the bye player: the next table
number, no second player, result `"Bye"`. -/
def swissByeRow (roundNumber bt : Nat) (bp : Player) : RoundRow :=
  { round := roundNumber, table := bt, p1 := bp.pid, n1 := bp.name,
    p2 := "", n2 := "", result := "Bye" }

/-- `matchPlayersSwiss` (match-domain.js).  `sh` is the `Math.random`
point-group shuffle, taken as an explicit permutation parameter.  The
sorted ACTIVE pool loses its last element to the bye when its size is odd;
the pairing loop runs on the shuffled remainder; pairs are seated at
consecutive table numbers from `MIN_TABLE_NUMBER`; the bye row takes the
next table number and is recorded at once.  Returns the updated state and
`matches.length + (byePlayer ? 1 : 0)`. -/
def matchPlayersSwiss (roundNumber now : Nat)
    (sh : List Player → List Player) (st : SState) : SState × Nat :=
  let opp := swissOpp st.hist
  let active := sortBy swissLe
    (st.players.filter (fun p => p.status = PStatus.active))
  if active.length < 2 then (st, 0)
  else
    let bye? : Option Player :=
      if active.length % 2 = 1 then active.getLast? else none
    let pool := if active.length % 2 = 1 then active.dropLast else active
    let r := swissPairLoop Player.pid opp (sh pool)
    let ms := r.1
    let st1 := { st with inProg := st.inProg ++ seatSwissPairs st roundNumber ms }
    match bye? with
    | none => (st1, ms.length)
    | some bp =>
      let bt := MIN_TABLE_NUMBER + ms.length
      let st2 := { st1 with inProg :=
        st1.inProg ++ [swissByeRow roundNumber bt bp] }
      (recordByeResult bp.pid roundNumber bt now st2, ms.length + 1)

/-- `isRoundComplete` (round-manager.js): every row naming a player has a
recorded result; an empty sheet counts as complete. -/
def isRoundComplete (st : SState) : Bool :=
  st.inProg.all (fun row => row.p1 = "" ∨ row.result ≠ "")

/-- The minimum opponent win rate, `0.333` in the source. -/
def OMW_FLOOR : Rat := 333 / 1000

/-- Opponent collection of `calculateOpponentWinRate`: skips rows whose
result is `"Bye"` or whose second id is empty. -/
def omwOpponents (hist : List HistRow) (playerId : String) : List String :=
  hist.foldl (fun acc row =>
    if row.result = "Bye" ∨ row.p2 = "" then acc
    else if row.p1 = playerId then addUniq acc row.p2
    else if row.p2 = playerId then addUniq acc row.p1
    else acc) []

/-- Win-rate contribution of one opponent id: the first matching player
row with at least one played game contributes its floored win rate; a
missing opponent or one with zero games contributes nothing. -/
def opponentContribution (players : List Player) (oid : String) : Option Rat :=
  match players.find? (fun p => p.pid = oid) with
  | some p =>
    if 0 < p.total then some (max ((p.wins : Rat) / (p.total : Rat)) OMW_FLOOR)
    else none
  | none => none

/-- `calculateOpponentWinRate`: the average of the floored win rates of the
collected opponents, defaulting to the floor when no opponent qualifies.
The status column is never consulted. -/
def calculateOpponentWinRate (players : List Player) (hist : List HistRow)
    (playerId : String) : Rat :=
  let opps := omwOpponents hist playerId
  if opps.isEmpty then OMW_FLOOR
  else
    let contribs := opps.filterMap (opponentContribution players)
    if contribs.isEmpty then OMW_FLOOR
    else contribs.sum / (contribs.length : Rat)

/-- `updateAllOpponentWinRates`: recompute the OMW% cell of every ACTIVE
player.  Each recomputation reads only wins and games, which the OMW
writes never touch, so the source's sequential sheet writes equal one
map. -/
def updateAllOpponentWinRates (st : SState) : SState :=
  { st with players := st.players.map (fun p =>
      if p.status = PStatus.active then
        { p with omw := calculateOpponentWinRate st.players st.hist p.pid }
      else p) }

/-- `startNewRound` (round-manager.js).  Guard failures return the state
untouched; past the guards the round sheet is cleared and the round
counter incremented BEFORE pairing runs, and a pairing that returns zero
is reported as a failure after those writes. -/
def startNewRound (now : Nat) (sh : List Player → List Player)
    (st : SState) : SState × Bool :=
  if 0 < st.currentRound ∧ ¬ isRoundComplete st then (st, false)
  else if (st.players.filter (fun p => p.status = PStatus.active)).length < 2
  then (st, false)
  else
    let newRound := st.currentRound + 1
    let st1 := { st with inProg := ([] : List RoundRow) }
    let st2 := { st1 with currentRound := newRound }
    let st3 := if 1 < newRound then updateAllOpponentWinRates st2 else st2
    let r := matchPlayersSwiss newRound now sh st3
    if r.2 = 0 then (r.1, false) else (r.1, true)

/-- `correctMatchResult` (match-domain.js / match-results.js): find the
first history row with the given match id; swap its two id and two name
columns and write the former player-2 name into the winner-name column;
then give the former winner `wins-1` (clamped at zero) and `losses+1`,
and the former loser `wins+1` and `losses-1` (clamped at zero).  An
unknown match id changes nothing. -/
def correctMatchResult (matchId : String) (st : SState) : SState :=
  match findFirstIdx (fun row => row.mid = matchId) st.hist with
  | none => st
  | some i =>
    let row := st.hist.getD i default
    let w := row.p1
    let wn := row.n1
    let l := row.p2
    let ln := row.n2
    let row2 := { row with
      p1 := l, n1 := ln, p2 := w, n2 := wn, winnerName := ln }
    let players2 := st.players.map (fun p =>
      if p.pid = w then { p with wins := p.wins - 1, losses := p.losses + 1 }
      else if p.pid = l then { p with wins := p.wins + 1, losses := p.losses - 1 }
      else p)
    { st with hist := st.hist.set i row2, players := players2 }

-- =========================================
-- Continuous variant with table numbers (match-manager.js, sheet-utils.js)
-- =========================================

/-- Write a cell block at row index `i` of a sheet: overwrite the existing
row, or extend the data region by one fresh row when writing just past it
(the spreadsheet `getRange(...).setValue` semantics used by the seating
loop). -/
def writeAt (l : List α) (i : Nat) (blank : α) (f : α → α) : List α :=
  if h : i < l.length then l.set i (f (l.get ⟨i, h⟩)) else l ++ [f blank]

/-- A row of the table-numbered in-progress sheet (table, player-1 id,
player-1 name, player-2 id, player-2 name); a zero table number models the
empty cell. -/
structure MRow where
  table : Nat
  p1 : String
  n1 : String
  p2 : String
  n2 : String
deriving DecidableEq, Repr

/-- A blank spreadsheet row. -/
def MRow.blank : MRow := { table := 0, p1 := "", n1 := "", p2 := "", n2 := "" }

/-- State of the table-numbered continuous variant (its history sheet has
the same ten columns as the Swiss one). -/
structure MState where
  players : List Player
  hist : List HistRow
  inProg : List MRow
  maxTables : Nat
deriving DecidableEq, Repr

/-- `getPastOpponents` over the ID1/ID2 columns of the table-variant's
history sheet (same symmetric scan as the simple variant). -/
def getPastOpponentsM (hist : List HistRow) (playerId : String) :
    List String :=
  hist.foldl (fun acc row =>
    if row.p1 = playerId then addUniq acc row.p2
    else if row.p2 = playerId then addUniq acc row.p1
    else acc) []

/-- `validateTableNumber` (sheet-utils.js): integral (automatic on `Nat`),
at least `MIN_TABLE_NUMBER` and at most `maxTables`. -/
def validateTableNumber (t maxTables : Nat) : Bool :=
  decide (MIN_TABLE_NUMBER ≤ t) && decide (t ≤ maxTables)

/-- `getNextAvailableTableNumber` (sheet-utils.js): the smallest number in
`[MIN_TABLE_NUMBER, maxTables]` carried by no row of the sheet as it
stands NOW (occupied or free alike); `none` models the thrown capacity
error. -/
def getNextAvailableTableNumber (rows : List MRow) (maxTables : Nat) :
    Option Nat :=
  (List.range' MIN_TABLE_NUMBER maxTables).find?
    (fun i => rows.all (fun r => decide (r.table ≠ i)))

/-- `getLastTableNumber` (sheet-utils.js): scanning the history from the
newest row, the table number of the most recent match won by the player
(matched by winner NAME); zero models `null` and the empty table cell. -/
def getLastTableNumber (players : List Player) (hist : List HistRow)
    (playerId : String) : Nat :=
  match hist.reverse.find? (fun row =>
      decide (getPlayerName players playerId = row.winnerName ∧
        (row.p1 = playerId ∨ row.p2 = playerId))) with
  | some row => row.table
  | none => 0

/-- The free-table list built before the seating loop: row index and table
number of every row with a table number and no player-1 id. -/
def collectAvail (rows : List MRow) : List (Nat × Nat) :=
  ((List.range rows.length).zip rows).filterMap (fun e =>
    if e.2.table ≠ 0 ∧ e.2.p1 = "" then some (e.1, e.2.table) else none)

/-- The used-table list built before the seating loop: table numbers of
rows with a table number and a player-1 id. -/
def collectUsed (rows : List MRow) : List Nat :=
  rows.filterMap (fun r =>
    if r.table ≠ 0 ∧ r.p1 ≠ "" then some r.table else none)

/-- Write both players of a pair into a row (columns 2–5; the table cell
is untouched). -/
def fillRow (a na b nb : String) (r : MRow) : MRow :=
  { r with p1 := a, n1 := na, p2 := b, n2 := nb }

/-- One iteration of the seating loop of `matchPlayers`
(match-manager.js): prefer the first player's last winning table when it
validates, is not in the used set and is on the free list; otherwise take
the first free row; otherwise write a fresh number and the players into
the row just below the PRE-loop data region (`n0`); `none` models the
capacity error thrown by `getNextAvailableTableNumber`. -/
def seatOne (maxTables : Nat) (players : List Player) (hist : List HistRow)
    (n0 : Nat) (rows : List MRow) (avail : List (Nat × Nat))
    (used : List Nat) (a na b nb : String) :
    Option (List MRow × List (Nat × Nat) × List Nat) :=
  let lastTable := getLastTableNumber players hist a
  let viaLast :=
    if lastTable ≠ 0 ∧ validateTableNumber lastTable maxTables = true ∧
        lastTable ∉ used then
      match findFirstIdx (fun e => decide (e.2 = lastTable)) avail with
      | some k => some (avail.getD k (0, 0), avail.eraseIdx k)
      | none => none
    else none
  match viaLast with
  | some (e, avail2) =>
    some (writeAt rows e.1 MRow.blank (fillRow a na b nb), avail2,
      used ++ [e.2])
  | none =>
    match avail with
    | e :: avail2 =>
      some (writeAt rows e.1 MRow.blank (fillRow a na b nb), avail2,
        used ++ [e.2])
    | [] =>
      match getNextAvailableTableNumber rows maxTables with
      | some t =>
        some (writeAt rows n0 MRow.blank
            (fun r => fillRow a na b nb { r with table := t }),
          [], used ++ [t])
      | none => none

/-- The seating loop over the emitted pairs; it stops at the first pair
that cannot be seated (the thrown capacity error propagates to
`matchPlayers`' catch-all), returning the sheet as written so far together
with a success flag. -/
def seatLoop (maxTables : Nat) (players : List Player) (hist : List HistRow)
    (n0 : Nat) : List (String × String) → List MRow → List (Nat × Nat) →
      List Nat → List MRow × Bool
  | [], rows, _, _ => (rows, true)
  | m :: ms, rows, avail, used =>
    match seatOne maxTables players hist n0 rows avail used m.1
        (getPlayerName players m.1) m.2 (getPlayerName players m.2) with
    | some r3 => seatLoop maxTables players hist n0 ms r3.1 r3.2.1 r3.2.2
    | none => (rows, false)

/-- The pairs `matchPlayers` (match-manager.js) emits: the shared pairing
loop over the sorted waiting pool against this variant's history. -/
def managerPairs (st : MState) : List (String × String) :=
  (contPairLoop Player.pid (getPastOpponentsM st.hist)
    (getWaitingPlayers st.players)).1

/-- `matchPlayers` (match-manager.js): sort the waiting pool, run the
pairing loop, set every paired player to 対戦中, then seat the pairs
through the table allocator (free lists computed from the pre-loop sheet
snapshot, fresh rows written below it).  When seating fails the exception
reaches the catch-all and the invocation returns 0 with the writes made so
far kept. -/
def managerMatchPlayers (st : MState) : MState × Nat :=
  let waiting := getWaitingPlayers st.players
  if waiting.length < 2 then (st, 0)
  else
    let ms := managerPairs st
    if ms = [] then (st, 0)
    else
      let ids := ms.foldr (fun pr acc => pr.1 :: pr.2 :: acc) ([] : List String)
      let players1 := st.players.map (fun p =>
        if p.pid ∈ ids then { p with status := PStatus.inProgress } else p)
      let sl := seatLoop st.maxTables st.players st.hist st.inProg.length ms
        st.inProg (collectAvail st.inProg) (collectUsed st.inProg)
      if sl.2 then
        ({ st with players := players1, inProg := sl.1 }, ms.length)
      else
        ({ st with players := players1, inProg := sl.1 }, 0)

-- =========================================
-- Worked-example fixtures
-- =========================================

/-- Shorthand for building player rows in the worked examples. -/
def mkPlayer (pid name : String) (points wins losses total : Nat)
    (status : PStatus) : Player :=
  { pid := pid, name := name, points := points, wins := wins,
    losses := losses, total := total, omw := 0, status := status,
    lastMatch := 0 }

/-- Shorthand for building history rows in the worked examples. -/
def mkHist (mid : String) (round table : Nat)
    (p1 n1 p2 n2 winnerName result : String) : HistRow :=
  { mid := mid, round := round, time := 0, table := table, p1 := p1,
    n1 := n1, p2 := p2, n2 := n2, winnerName := winnerName,
    result := result }

-- =========================================
-- C1: no rematches
-- =========================================

theorem recordByeResult_inProg (playerId : String)
    (roundNumber tableNumber now : Nat) (st : SState) :
    (recordByeResult playerId roundNumber tableNumber now st).inProg =
      st.inProg := by
  unfold recordByeResult
  dsimp only
  split <;> rfl

/-- Every seated pair row carries a pair emitted by the Swiss pairing
loop; its second player is off the first player's blacklist. -/
theorem seatSwissPairs_no_rematch (st : SState) (roundNumber : Nat)
    (opp : String → List String) (pool : List Player) (row : RoundRow)
    (hrow : row ∈ seatSwissPairs st roundNumber
      (swissPairLoop Player.pid opp pool).1) :
    row.p2 ∉ opp row.p1 := by
  rcases List.mem_map.mp hrow with ⟨e, he, rfl⟩
  exact pairLoopAux_no_rematch true Player.pid opp pool.length pool e.2
    (List.of_mem_zip he).2

/-- C1.  For every pair (p1,p2) emitted by a pairing invocation
(`matchPlayers` in the continuous variant, `matchPlayersSwiss` in the Swiss
variant), p2 is not among the past opponents of p1 as computed from the
match-history table at the start of that invocation; bye rows (result
`"Bye"`, no second player) are excluded from the check. -/
theorem C1_no_rematches :
    (∀ (st : CState) (pr : String × String),
        pr ∈ ((matchPlayers st).1.inProg).drop st.inProg.length →
          pr.2 ∉ getPastOpponents st.hist pr.1) ∧
    (∀ (st : SState) (roundNumber now : Nat)
        (sh : List Player → List Player) (row : RoundRow),
        row ∈ ((matchPlayersSwiss roundNumber now sh st).1.inProg).drop
            st.inProg.length →
          row.result ≠ "Bye" → row.p2 ∉ swissOpp st.hist row.p1) := by
  constructor
  · intro st pr hpr
    simp only [matchPlayers] at hpr
    split_ifs at hpr with h1 h2
    · rw [List.drop_length] at hpr
      simp at hpr
    · rw [List.drop_length] at hpr
      simp at hpr
    · simp only [List.drop_left] at hpr
      exact pairLoopAux_no_rematch false Player.pid
        (getPastOpponents st.hist)
        (getWaitingPlayers st.players).length
        (getWaitingPlayers st.players) pr hpr
  · intro st roundNumber now sh row hrow hbye
    simp only [matchPlayersSwiss] at hrow
    split_ifs at hrow with h1 hodd
    · rw [List.drop_length] at hrow
      simp at hrow
    · rcases hb : (sortBy swissLe (st.players.filter
          (fun p => p.status = PStatus.active))).getLast? with _ | bp
      · rw [hb] at hrow
        simp only [List.drop_left] at hrow
        exact seatSwissPairs_no_rematch st roundNumber (swissOpp st.hist) _
          row hrow
      · rw [hb] at hrow
        simp only [recordByeResult_inProg, List.append_assoc,
          List.drop_left] at hrow
        rcases List.mem_append.mp hrow with hs | hlast
        · exact seatSwissPairs_no_rematch st roundNumber (swissOpp st.hist) _
            row hs
        · rcases List.mem_singleton.mp hlast with rfl
          simp [swissByeRow] at hbye
    · simp only [List.drop_left] at hrow
      exact seatSwissPairs_no_rematch st roundNumber (swissOpp st.hist) _
        row hrow

-- =========================================
-- C4, C9, C10: the correction operation
-- =========================================

theorem findFirstIdx_found {p : α → Bool} {l : List α} {i : Nat}
    (h : findFirstIdx p l = some i) (hi : i < l.length) :
    p (l.get ⟨i, hi⟩) = true := by
  induction l generalizing i with
  | nil => simp [findFirstIdx] at h
  | cons x xs ih =>
    unfold findFirstIdx at h
    split at h
    · cases h
      simpa
    · rcases Option.map_eq_some'.mp h with ⟨j, hj, rfl⟩
      exact ih hj (by simpa using hi)

theorem findFirstIdx_set {p : α → Bool} {l : List α} {i : Nat} {a : α}
    (h : findFirstIdx p l = some i) (ha : p a = true) :
    findFirstIdx p (l.set i a) = some i := by
  induction l generalizing i with
  | nil => simp [findFirstIdx] at h
  | cons x xs ih =>
    unfold findFirstIdx at h
    split at h
    · cases h
      simp [findFirstIdx, ha]
    · rcases Option.map_eq_some'.mp h with ⟨j, hj, rfl⟩
      have hx : ¬ p x = true := by assumption
      simp only [List.set_cons_succ]
      unfold findFirstIdx
      simp [hx, ih hj]

/-- A two-player, two-row Swiss state used by several worked examples. -/
def exBase : SState :=
  { players := [mkPlayer "P001" "Ann" 3 1 0 1 PStatus.active,
                mkPlayer "P002" "Bob" 0 0 1 1 PStatus.active],
    hist := [mkHist "T0001" 1 1 "P001" "Ann" "P002" "Bob" "Ann" "Ann wins",
             mkHist "T0002" 1 2 "P003" "Cid" "P004" "Dee" "Cid" "Cid wins"],
    inProg := [], currentRound := 1, maxTables := 50 }

/-- A state whose recorded winner has zero wins (reachable, e.g. after a
recorded draw row, whose player-1 is treated as the winner by the
correction). -/
def exC4 : SState :=
  { players := [mkPlayer "P001" "Ann" 0 0 1 1 PStatus.active,
                mkPlayer "P002" "Bob" 0 0 1 1 PStatus.active],
    hist := [mkHist "T0001" 1 1 "P001" "Ann" "P002" "Bob" "" "both lose"],
    inProg := [], currentRound := 1, maxTables := 50 }

/-- C4 counterexample.  The claim asserts `wins + losses` is conserved for
the two named players FOR EVERY STARTING VALUE of their stats; but the
clamp `Math.max(0, wins - 1)` keeps a zero-win recorded winner at zero
wins while the losses still gain one, so the sum changes. -/
theorem C4_counterexample :
    ((correctMatchResult "T0001" exC4).players.getD 0 default).wins +
        ((correctMatchResult "T0001" exC4).players.getD 0 default).losses ≠
      (exC4.players.getD 0 default).wins +
        (exC4.players.getD 0 default).losses := by
  decide

/-- C4 amended.  For each of the two players named in the corrected match,
`correctMatchResult` swaps the win/loss split — the original winner moves
to `(wins-1, losses+1)`, the original loser to `(wins+1, losses-1)` — and
conserves `wins + losses`, PROVIDED the original winner has at least one
win and the original loser at least one loss (otherwise the zero clamp
fires); every player not named in the row keeps their record. -/
theorem C4_amended (st : SState) (matchId : String) (i : Nat)
    (hfind : findFirstIdx (fun row => row.mid = matchId) st.hist = some i) :
    (correctMatchResult matchId st).players.length = st.players.length ∧
    ∀ k (hk : k < st.players.length)
        (hk' : k < (correctMatchResult matchId st).players.length),
      ((st.players.get ⟨k, hk⟩).pid = (st.hist.getD i default).p1 →
        1 ≤ (st.players.get ⟨k, hk⟩).wins →
        ((correctMatchResult matchId st).players.get ⟨k, hk'⟩).wins =
            (st.players.get ⟨k, hk⟩).wins - 1 ∧
          ((correctMatchResult matchId st).players.get ⟨k, hk'⟩).losses =
            (st.players.get ⟨k, hk⟩).losses + 1 ∧
          ((correctMatchResult matchId st).players.get ⟨k, hk'⟩).wins +
              ((correctMatchResult matchId st).players.get ⟨k, hk'⟩).losses =
            (st.players.get ⟨k, hk⟩).wins +
              (st.players.get ⟨k, hk⟩).losses) ∧
      ((st.players.get ⟨k, hk⟩).pid ≠ (st.hist.getD i default).p1 →
        (st.players.get ⟨k, hk⟩).pid = (st.hist.getD i default).p2 →
        1 ≤ (st.players.get ⟨k, hk⟩).losses →
        ((correctMatchResult matchId st).players.get ⟨k, hk'⟩).wins =
            (st.players.get ⟨k, hk⟩).wins + 1 ∧
          ((correctMatchResult matchId st).players.get ⟨k, hk'⟩).losses =
            (st.players.get ⟨k, hk⟩).losses - 1 ∧
          ((correctMatchResult matchId st).players.get ⟨k, hk'⟩).wins +
              ((correctMatchResult matchId st).players.get ⟨k, hk'⟩).losses =
            (st.players.get ⟨k, hk⟩).wins +
              (st.players.get ⟨k, hk⟩).losses) ∧
      ((st.players.get ⟨k, hk⟩).pid ≠ (st.hist.getD i default).p1 →
        (st.players.get ⟨k, hk⟩).pid ≠ (st.hist.getD i default).p2 →
        (correctMatchResult matchId st).players.get ⟨k, hk'⟩ =
          st.players.get ⟨k, hk⟩) := by
  unfold correctMatchResult
  rw [hfind]
  dsimp only
  refine ⟨by simp, ?_⟩
  intro k hk hk'
  have hget : ∀ (hk2 : k < (st.players.map (fun p =>
      if p.pid = (st.hist.getD i default).p1 then
        { p with wins := p.wins - 1, losses := p.losses + 1 }
      else if p.pid = (st.hist.getD i default).p2 then
        { p with wins := p.wins + 1, losses := p.losses - 1 }
      else p)).length),
      (st.players.map (fun p =>
        if p.pid = (st.hist.getD i default).p1 then
          { p with wins := p.wins - 1, losses := p.losses + 1 }
        else if p.pid = (st.hist.getD i default).p2 then
          { p with wins := p.wins + 1, losses := p.losses - 1 }
        else p)).get ⟨k, hk2⟩ =
      (fun p =>
        if p.pid = (st.hist.getD i default).p1 then
          { p with wins := p.wins - 1, losses := p.losses + 1 }
        else if p.pid = (st.hist.getD i default).p2 then
          { p with wins := p.wins + 1, losses := p.losses - 1 }
        else p) (st.players.get ⟨k, hk⟩) := by
    intro hk2
    simp [List.get_eq_getElem, List.getElem_map]
  rw [hget]
  set p := st.players.get ⟨k, hk⟩ with hp
  refine ⟨?_, ?_, ?_⟩
  · intro hw hwins
    simp only [if_pos hw]
    refine ⟨by trivial, by trivial, by omega⟩
  · intro hnw hl hlosses
    simp only [if_neg hnw, if_pos hl]
    refine ⟨by trivial, by trivial, by omega⟩
  · intro hnw hnl
    simp only [if_neg hnw, if_neg hnl]

/-- C4 witness: at `exBase` the winner named by row `T0001` has one win,
so the correction conserves the sum of wins and losses for that player. -/
theorem C4_amended_witness :
    ((correctMatchResult "T0001" exBase).players.get ⟨0, by decide⟩).wins +
        ((correctMatchResult "T0001" exBase).players.get
          ⟨0, by decide⟩).losses =
      (exBase.players.get ⟨0, by decide⟩).wins +
        (exBase.players.get ⟨0, by decide⟩).losses := by
  have h := (C4_amended exBase "T0001" 0 (by decide)).2 0 (by decide)
    (by decide)
  exact (h.1 (by decide) (by decide)).2.2

/-- C9.  `correctMatchResult` touches only the named history row and the
wins/losses cells of the two players that row records: the round sheet,
the round counter, the max-tables setting, every other history row, the
non-swapped columns of the named row, every player's id, name, points,
games played, OMW and status and timestamp, and every player not named in
the row are all unchanged. -/
theorem C9_correction_frame (matchId : String) (st : SState) :
    (correctMatchResult matchId st).inProg = st.inProg ∧
    (correctMatchResult matchId st).currentRound = st.currentRound ∧
    (correctMatchResult matchId st).maxTables = st.maxTables ∧
    (correctMatchResult matchId st).hist.length = st.hist.length ∧
    (correctMatchResult matchId st).players.length = st.players.length ∧
    (∀ j (hj : j < st.hist.length)
        (hj' : j < (correctMatchResult matchId st).hist.length),
      some j ≠ findFirstIdx (fun row => row.mid = matchId) st.hist →
        (correctMatchResult matchId st).hist.get ⟨j, hj'⟩ =
          st.hist.get ⟨j, hj⟩) ∧
    (∀ j (hj : j < st.hist.length)
        (hj' : j < (correctMatchResult matchId st).hist.length),
      ((correctMatchResult matchId st).hist.get ⟨j, hj'⟩).mid =
          (st.hist.get ⟨j, hj⟩).mid ∧
        ((correctMatchResult matchId st).hist.get ⟨j, hj'⟩).round =
          (st.hist.get ⟨j, hj⟩).round ∧
        ((correctMatchResult matchId st).hist.get ⟨j, hj'⟩).time =
          (st.hist.get ⟨j, hj⟩).time ∧
        ((correctMatchResult matchId st).hist.get ⟨j, hj'⟩).table =
          (st.hist.get ⟨j, hj⟩).table ∧
        ((correctMatchResult matchId st).hist.get ⟨j, hj'⟩).result =
          (st.hist.get ⟨j, hj⟩).result) ∧
    (∀ k (hk : k < st.players.length)
        (hk' : k < (correctMatchResult matchId st).players.length),
      ((correctMatchResult matchId st).players.get ⟨k, hk'⟩).pid =
          (st.players.get ⟨k, hk⟩).pid ∧
        ((correctMatchResult matchId st).players.get ⟨k, hk'⟩).name =
          (st.players.get ⟨k, hk⟩).name ∧
        ((correctMatchResult matchId st).players.get ⟨k, hk'⟩).points =
          (st.players.get ⟨k, hk⟩).points ∧
        ((correctMatchResult matchId st).players.get ⟨k, hk'⟩).total =
          (st.players.get ⟨k, hk⟩).total ∧
        ((correctMatchResult matchId st).players.get ⟨k, hk'⟩).omw =
          (st.players.get ⟨k, hk⟩).omw ∧
        ((correctMatchResult matchId st).players.get ⟨k, hk'⟩).status =
          (st.players.get ⟨k, hk⟩).status ∧
        ((correctMatchResult matchId st).players.get ⟨k, hk'⟩).lastMatch =
          (st.players.get ⟨k, hk⟩).lastMatch) ∧
    (∀ i, findFirstIdx (fun row => row.mid = matchId) st.hist = some i →
      ∀ k (hk : k < st.players.length)
          (hk' : k < (correctMatchResult matchId st).players.length),
        (st.players.get ⟨k, hk⟩).pid ≠ (st.hist.getD i default).p1 →
        (st.players.get ⟨k, hk⟩).pid ≠ (st.hist.getD i default).p2 →
          (correctMatchResult matchId st).players.get ⟨k, hk'⟩ =
            st.players.get ⟨k, hk⟩) := by
  rcases hfind : findFirstIdx (fun row => row.mid = matchId) st.hist with
    _ | i
  · unfold correctMatchResult
    rw [hfind]
    refine ⟨rfl, rfl, rfl, rfl, rfl, ?_, ?_, ?_, ?_⟩
    · intro j hj hj' _
      rfl
    · intro j hj hj'
      exact ⟨by trivial, by trivial, by trivial, by trivial, by trivial⟩
    · intro k hk hk'
      exact ⟨by trivial, by trivial, by trivial, by trivial, by trivial, by trivial, by trivial⟩
    · intro i hi
      cases hi
  · unfold correctMatchResult
    rw [hfind]
    dsimp only
    refine ⟨rfl, rfl, rfl, by simp, by simp, ?_, ?_, ?_, ?_⟩
    · intro j hj hj' hne
      have hij : i ≠ j := fun h => hne (by rw [h])
      simp [List.get_eq_getElem, List.getElem_set, hij]
    · intro j hj hj'
      by_cases hij : i = j
      · subst hij
        have hD : st.hist.getD i default = st.hist[i] :=
          List.getD_eq_getElem st.hist default hj
        simp only [List.get_eq_getElem, List.getElem_set, if_pos rfl, hD]
        exact ⟨by trivial, by trivial, by trivial, by trivial, by trivial⟩
      · simp only [List.get_eq_getElem, List.getElem_set, if_neg hij]
        exact ⟨by trivial, by trivial, by trivial, by trivial, by trivial⟩
    · intro k hk hk'
      simp only [List.get_eq_getElem, List.getElem_map]
      by_cases h1 : st.players[k].pid = (st.hist.getD i default).p1
      · simp only [if_pos h1]
        exact ⟨by trivial, by trivial, by trivial, by trivial, by trivial, by trivial, by trivial⟩
      · by_cases h2 : st.players[k].pid = (st.hist.getD i default).p2
        · simp only [if_neg h1, if_pos h2]
          exact ⟨by trivial, by trivial, by trivial, by trivial, by trivial, by trivial, by trivial⟩
        · simp only [if_neg h1, if_neg h2]
          exact ⟨by trivial, by trivial, by trivial, by trivial, by trivial, by trivial, by trivial⟩
    · intro i2 hi2 k hk hk' h1 h2
      cases hi2
      simp only [List.get_eq_getElem, List.getElem_map] at h1 h2 ⊢
      rw [if_neg h1, if_neg h2]

/-- C9 witness: correcting `T0001` at `exBase` leaves the round sheet, the
second history row and the first player's status and points unchanged. -/
theorem C9_witness :
    (correctMatchResult "T0001" exBase).inProg = exBase.inProg ∧
    (correctMatchResult "T0001" exBase).hist.get ⟨1, by decide⟩ =
      exBase.hist.get ⟨1, by decide⟩ ∧
    ((correctMatchResult "T0001" exBase).players.get ⟨0, by decide⟩).status =
      (exBase.players.get ⟨0, by decide⟩).status ∧
    ((correctMatchResult "T0001" exBase).players.get ⟨0, by decide⟩).points =
      (exBase.players.get ⟨0, by decide⟩).points := by
  have h := C9_correction_frame "T0001" exBase
  refine ⟨h.1, ?_, ?_, ?_⟩
  · exact h.2.2.2.2.2.1 1 (by decide) (by decide) (by decide)
  · exact (h.2.2.2.2.2.2.2.1 0 (by decide) (by decide)).2.2.2.2.2.1
  · exact (h.2.2.2.2.2.2.2.1 0 (by decide) (by decide)).2.2.1

theorem correctMatchResult_hist_eq {matchId : String} {st : SState}
    {i : Nat}
    (h : findFirstIdx (fun row => row.mid = matchId) st.hist = some i) :
    (correctMatchResult matchId st).hist =
      st.hist.set i { st.hist.getD i default with
        p1 := (st.hist.getD i default).p2
        n1 := (st.hist.getD i default).n2
        p2 := (st.hist.getD i default).p1
        n2 := (st.hist.getD i default).n1
        winnerName := (st.hist.getD i default).n2 } := by
  unfold correctMatchResult
  rw [h]

/-- C10.  Applying `correctMatchResult` twice with the same match id
restores the history table exactly, for any state whose named row has its
winner-name column equal to its player-1 name (a normally recorded win):
the row operation is an involution. -/
theorem C10_correction_involution (matchId : String) (st : SState) (i : Nat)
    (hfind : findFirstIdx (fun row => row.mid = matchId) st.hist = some i)
    (hwn : (st.hist.getD i default).winnerName =
      (st.hist.getD i default).n1) :
    (correctMatchResult matchId (correctMatchResult matchId st)).hist =
      st.hist := by
  have hi : i < st.hist.length := findFirstIdx_lt_length hfind
  have hrowp : (fun row => decide (row.mid = matchId))
      (st.hist.get ⟨i, hi⟩) = true := findFirstIdx_found hfind hi
  set row := st.hist.getD i default with hrow
  have hrowget : row = st.hist.get ⟨i, hi⟩ := by
    rw [hrow, List.getD_eq_getElem st.hist default hi]
    rfl
  -- the first correction
  have h1 : (correctMatchResult matchId st).hist =
      st.hist.set i { row with
        p1 := row.p2, n1 := row.n2, p2 := row.p1, n2 := row.n1,
        winnerName := row.n2 } := correctMatchResult_hist_eq hfind
  set row2 : HistRow := { row with
    p1 := row.p2, n1 := row.n2, p2 := row.p1, n2 := row.n1,
    winnerName := row.n2 } with hrow2
  -- the second correction finds the same row, whose match id is unchanged
  have hmid : row2.mid = matchId := by
    have : row.mid = matchId := by
      rw [hrowget]
      simpa using hrowp
    simpa [hrow2]
  have hfind2 : findFirstIdx (fun r => r.mid = matchId)
      (correctMatchResult matchId st).hist = some i := by
    rw [h1]
    exact findFirstIdx_set hfind (by simpa using hmid)
  have hi2 : i < (correctMatchResult matchId st).hist.length :=
    findFirstIdx_lt_length hfind2
  have hget2 : (correctMatchResult matchId st).hist.getD i default = row2 := by
    rw [h1, List.getD_eq_getElem _ default (by simpa using hi)]
    simp [List.getElem_set]
  have h2 : (correctMatchResult matchId
      (correctMatchResult matchId st)).hist =
      (correctMatchResult matchId st).hist.set i { row2 with
        p1 := row2.p2, n1 := row2.n2, p2 := row2.p1, n2 := row2.n1,
        winnerName := row2.n2 } := by
    have h2a := correctMatchResult_hist_eq hfind2
    rw [hget2] at h2a
    exact h2a
  have hrow3 : ({ row2 with
      p1 := row2.p2, n1 := row2.n2, p2 := row2.p1, n2 := row2.n1,
      winnerName := row2.n2 } : HistRow) = row := by
    rw [hrow2]
    cases hr : row
    simp only
    rw [hr] at hwn
    simp only at hwn
    simp [hwn]
  rw [h2, h1, List.set_set]
  apply List.ext_getElem
  · simp
  · intro j hj hj'
    rw [List.getElem_set]
    split
    · next hij =>
      subst hij
      rw [hrow3, hrowget]
      rfl
    · rfl

/-- C10 witness: row `T0001` of `exBase` records a normal win (its winner
name equals its player-1 name), and the double correction restores the
history table. -/
theorem C10_witness :
    (correctMatchResult "T0001" (correctMatchResult "T0001" exBase)).hist =
      exBase.hist :=
  C10_correction_involution "T0001" exBase 0 (by decide) (by decide)

-- =========================================
-- C2: the Swiss bye
-- =========================================

/-- A fresh two-player Swiss state (no history yet). -/
def exPair : SState :=
  { players := [mkPlayer "P001" "Ann" 3 1 0 1 PStatus.active,
                mkPlayer "P002" "Bob" 0 0 1 1 PStatus.active],
    hist := [], inProg := [], currentRound := 0, maxTables := 50 }

/-- C1 witness: the pair emitted on the fresh two-player state is not a
rematch. -/
theorem C1_witness :
    ("P002" : String) ∉ swissOpp exPair.hist "P001" :=
  C1_no_rematches.2 exPair 1 0 id
    { round := 1, table := 1, p1 := "P001", n1 := "Ann", p2 := "P002",
      n2 := "Bob", result := "" } (by decide) (by decide)

theorem swissLe_refl (a : Player) : swissLe a a = true := by
  simp [swissLe]

theorem swissLe_total (a b : Player) :
    swissLe a b = true ∨ swissLe b a = true := by
  simp only [swissLe, Bool.or_eq_true, Bool.and_eq_true, decide_eq_true_eq]
  omega

theorem swissLe_trans (a b c : Player) :
    swissLe a b = true → swissLe b c = true → swissLe a c = true := by
  simp only [swissLe, Bool.or_eq_true, Bool.and_eq_true, decide_eq_true_eq]
  omega

theorem updateFirst_append_eq (p : α → Bool) (g : α → α) (l1 l2 : List α)
    (b : α) (hl1 : ∀ x ∈ l1, ¬ p x = true) (hb : p b = true) :
    updateFirst p g (l1 ++ b :: l2) = (l1 ++ g b :: l2, true) := by
  induction l1 with
  | nil => simp [updateFirst, hb]
  | cons x xs ih =>
    have hx := hl1 x (List.mem_cons_self x xs)
    have ih2 := ih (fun y hy => hl1 y (List.mem_cons_of_mem _ hy))
    simp only [List.cons_append, updateFirst, if_neg hx, List.append_eq, ih2]

theorem mem_split_first_pid {b : Player} {l : List Player}
    (hb : b ∈ l) (hnd : (l.map Player.pid).Nodup) :
    ∃ l1 l2, l = l1 ++ b :: l2 ∧ ∀ x ∈ l1, x.pid ≠ b.pid := by
  rcases List.mem_iff_append.mp hb with ⟨l1, l2, rfl⟩
  refine ⟨l1, l2, rfl, ?_⟩
  intro x hx hpid
  rw [List.map_append, List.map_cons] at hnd
  rcases List.nodup_append.mp hnd with ⟨_, hnd2, hdisj⟩
  exact hdisj (hpid ▸ List.mem_map_of_mem Player.pid hx)
    (List.mem_cons_self _ _)

/-- C2.  When the ACTIVE pool is odd-sized, `matchPlayersSwiss` grants
exactly one bye: it goes to the last player of the sorted pool — who is
ranked at-or-below every active player — and is removed before the pairing
core runs on the remaining n-1 players; that player gains `POINTS_BYE`
points, one win, one played game, the fresh timestamp, and exactly one bye
history record carrying the round's next table number (one past the last
seated pair).  Player ids are assumed unique on the sheet and the shuffle
is any permutation. -/
theorem C2_swiss_bye (st : SState) (roundNumber now : Nat)
    (sh : List Player → List Player)
    (hsh : ∀ l, (sh l).Perm l)
    (hnodup : (st.players.map Player.pid).Nodup)
    (hodd : (sortBy swissLe (st.players.filter
      (fun p => p.status = PStatus.active))).length % 2 = 1)
    (h2 : 2 ≤ (sortBy swissLe (st.players.filter
      (fun p => p.status = PStatus.active))).length) :
    ∃ (b : Player) (hne : sortBy swissLe (st.players.filter
        (fun p => p.status = PStatus.active)) ≠ []),
      b = (sortBy swissLe (st.players.filter
        (fun p => p.status = PStatus.active))).getLast hne ∧
      (∀ p ∈ st.players, p.status = PStatus.active →
        swissLe p b = true) ∧
      (sh ((sortBy swissLe (st.players.filter
          (fun p => p.status = PStatus.active))).dropLast)).length =
        (sortBy swissLe (st.players.filter
          (fun p => p.status = PStatus.active))).length - 1 ∧
      (matchPlayersSwiss roundNumber now sh st).1.hist =
        st.hist ++ [{
          mid := "T" ++ pad4 (st.hist.length + 1)
          round := roundNumber
          time := now
          table := MIN_TABLE_NUMBER + (swissPairLoop Player.pid
            (swissOpp st.hist) (sh ((sortBy swissLe (st.players.filter
              (fun p => p.status = PStatus.active))).dropLast))).1.length
          p1 := b.pid
          n1 := getPlayerName st.players b.pid
          p2 := ""
          n2 := ""
          winnerName := getPlayerName st.players b.pid
          result := "Bye" }] ∧
      ∃ l1 l2, st.players = l1 ++ b :: l2 ∧
        (matchPlayersSwiss roundNumber now sh st).1.players =
          l1 ++ { b with
            points := b.points + POINTS_BYE, wins := b.wins + 1,
            total := b.total + 1, lastMatch := now } :: l2 := by
  set A := sortBy swissLe (st.players.filter
    (fun p => p.status = PStatus.active)) with hA
  have hne : A ≠ [] := by
    intro h
    rw [h] at h2
    simp at h2
  set b := A.getLast hne with hb
  have hbA : b ∈ A := List.getLast_mem hne
  have hbfilter : b ∈ st.players.filter
      (fun p => p.status = PStatus.active) :=
    (sortBy_perm swissLe _).mem_iff.mp hbA
  have hbmem : b ∈ st.players := List.mem_of_mem_filter hbfilter
  have hsorted : A.Pairwise (swissLe · · = true) :=
    sortBy_pairwise swissLe_total swissLe_trans _
  have hlow : ∀ p ∈ st.players, p.status = PStatus.active →
      swissLe p b = true := by
    intro p hp hstat
    have hpA : p ∈ A := (sortBy_perm swissLe _).mem_iff.mpr
      (List.mem_filter.mpr ⟨hp, by simp [hstat]⟩)
    exact sorted_le_getLast swissLe_refl hsorted hne hpA
  rcases mem_split_first_pid hbmem hnodup with ⟨l1, l2, hsplit, hl1⟩
  have hlast? : A.getLast? = some b := by
    rw [hb]
    exact List.getLast?_eq_getLast A hne
  have hguard : ¬ A.length < 2 := by omega
  -- evaluate matchPlayersSwiss
  have hupd := updateFirst_append_eq (fun p => p.pid = b.pid)
    (fun p => { p with
      points := p.points + POINTS_BYE, wins := p.wins + 1,
      total := p.total + 1, lastMatch := now }) l1 l2 b
    (fun x hx => by simpa using hl1 x hx) (by simp)
  refine ⟨b, hne, rfl, hlow, ?_, ?_, l1, l2, hsplit, ?_⟩
  · exact (hsh A.dropLast).length_eq.trans (by simp)
  · unfold matchPlayersSwiss
    rw [← hA, if_neg hguard]
    simp only [if_pos hodd]
    rw [hlast?]
    simp only [recordByeResult]
    rw [hsplit, hupd]
    simp
  · unfold matchPlayersSwiss
    rw [← hA, if_neg hguard]
    simp only [if_pos hodd]
    rw [hlast?]
    simp only [recordByeResult]
    rw [hsplit, hupd]
    simp

/-- Scenario B of the spec: five ACTIVE players with points 9, 6, 6, 3, 0. -/
def exScenarioB : SState :=
  { players := [mkPlayer "P001" "Ann" 9 3 0 3 PStatus.active,
                mkPlayer "P002" "Bob" 6 2 1 3 PStatus.active,
                mkPlayer "P003" "Cid" 6 2 1 3 PStatus.active,
                mkPlayer "P004" "Dee" 3 1 2 3 PStatus.active,
                mkPlayer "P005" "Eve" 0 0 3 3 PStatus.active],
    hist := [], inProg := [], currentRound := 1, maxTables := 50 }

/-- C2 witness (Scenario B): with points 9/6/6/3/0 the odd pool produces
exactly one bye record, and the zero-point player P005 ends with
`POINTS_BYE` points and one win-equivalent game. -/
theorem C2_witness :
    (matchPlayersSwiss 2 5 id exScenarioB).1.hist.length =
      exScenarioB.hist.length + 1 ∧
    ((matchPlayersSwiss 2 5 id exScenarioB).1.players.getD 4 default).pid =
        "P005" ∧
    ((matchPlayersSwiss 2 5 id exScenarioB).1.players.getD 4 default).points =
        POINTS_BYE ∧
    ((matchPlayersSwiss 2 5 id exScenarioB).1.players.getD 4 default).wins =
        1 ∧
    ((matchPlayersSwiss 2 5 id exScenarioB).1.players.getD 4 default).total =
        4 := by
  obtain ⟨b, hne, hbdef, hlow, hlen, hhist, l1, l2, hsplit, hupd⟩ :=
    C2_swiss_bye exScenarioB 2 5 id (fun l => List.Perm.refl l) (by decide)
      (by decide) (by decide)
  refine ⟨by rw [hhist]; simp, by decide, by decide, by decide, by decide⟩

-- =========================================
-- C3: behaviour when the first player is unpairable; completeness
-- =========================================

/-- History in which player P001 has already faced P002, P003 and P004,
while P002 and P003 have never met. -/
def exC3hist : List HistRow :=
  [mkHist "T0001" 1 1 "P001" "Ann" "P002" "Bob" "Ann" "Ann wins",
   mkHist "T0002" 1 2 "P001" "Ann" "P003" "Cid" "Ann" "Ann wins",
   mkHist "T0003" 1 3 "P001" "Ann" "P004" "Dee" "Ann" "Ann wins"]

/-- Sorted pool for the unpairable-leader example: P001 first. -/
def exC3players : List Player :=
  [mkPlayer "P001" "Ann" 9 3 0 3 PStatus.active,
   mkPlayer "P002" "Bob" 0 0 1 1 PStatus.active,
   mkPlayer "P003" "Cid" 0 0 1 1 PStatus.active,
   mkPlayer "P004" "Dee" 0 0 1 1 PStatus.active]

/-- C3 counterexample.  The claim says that in BOTH pairing strategies an
unpairable first player is set aside and pairing continues with the
remaining players.  Here P001 (first of the pool) has faced everyone, and
the remainder still contains the fresh pair (P002, P003): the continuous
loop indeed continues and emits it, but the Swiss loop `break`s and emits
no pair at all. -/
theorem C3_counterexample :
    pickOpponent Player.pid (swissOpp exC3hist "P001")
        (exC3players.drop 1) = none ∧
    (swissPairLoop Player.pid (swissOpp exC3hist) exC3players).1 = [] ∧
    (swissPairLoop Player.pid (swissOpp exC3hist)
        (exC3players.drop 1)).1 = [("P002", "P003")] ∧
    (contPairLoop Player.pid (swissOpp exC3hist) exC3players).1 =
      [("P002", "P003")] := by
  decide

theorem updateFirst_shape (p : α → Bool) (g : α → α) (l : List α) :
    (updateFirst p g l).1 = l ∨
      ∃ l1 x l2, l = l1 ++ x :: l2 ∧
        (updateFirst p g l).1 = l1 ++ g x :: l2 := by
  induction l with
  | nil => left; rfl
  | cons y ys ih =>
    unfold updateFirst
    by_cases hy : p y = true
    · right
      exact ⟨[], y, ys, rfl, by simp [hy]⟩
    · rcases ih with h | ⟨l1, x, l2, hsp, hres⟩
      · left
        simp [hy, h]
      · right
        refine ⟨y :: l1, x, l2, by simp [hsp], ?_⟩
        simp [hy, hres]

theorem recordByeResult_status (playerId : String)
    (rn tn now : Nat) (st : SState) :
    ∀ p ∈ st.players,
      ∃ q ∈ (recordByeResult playerId rn tn now st).players,
        q.pid = p.pid ∧ q.status = p.status := by
  intro p hp
  unfold recordByeResult
  dsimp only
  split
  · rcases updateFirst_shape (fun p2 => p2.pid = playerId)
      (fun p2 => { p2 with
        points := p2.points + POINTS_BYE, wins := p2.wins + 1,
        total := p2.total + 1, lastMatch := now }) st.players with
      h | ⟨l1, x, l2, hsp, hres⟩
    · exact ⟨p, by rw [h]; exact hp, rfl, rfl⟩
    · rw [hsp] at hp
      rcases List.mem_append.mp hp with h1 | h2
      · exact ⟨p, by rw [hres]; exact List.mem_append_left _ h1, rfl, rfl⟩
      · rcases List.mem_cons.mp h2 with rfl | h3
        · refine ⟨{ p with
            points := p.points + POINTS_BYE, wins := p.wins + 1,
            total := p.total + 1, lastMatch := now }, ?_, rfl, rfl⟩
          rw [hres]
          exact List.mem_append_right _ (List.mem_cons_self _ _)
        · exact ⟨p, by
            rw [hres]
            exact List.mem_append_right _ (List.mem_cons_of_mem _ h3),
            rfl, rfl⟩
  · exact ⟨p, hp, rfl, rfl⟩

theorem mem_pairIds {ms : List (String × String)} {x : String} :
    x ∈ ms.foldr (fun pr acc => pr.1 :: pr.2 :: acc) ([] : List String) ↔
      ∃ pr ∈ ms, x = pr.1 ∨ x = pr.2 := by
  induction ms with
  | nil => simp
  | cons m ms ih =>
    simp only [List.foldr_cons, List.mem_cons, ih]
    constructor
    · rintro (rfl | rfl | ⟨pr, hpr, hs⟩)
      · exact ⟨m, Or.inl rfl, Or.inl rfl⟩
      · exact ⟨m, Or.inl rfl, Or.inr rfl⟩
      · exact ⟨pr, Or.inr hpr, hs⟩
    · rintro ⟨pr, (rfl | hpr), hs⟩
      · rcases hs with rfl | rfl
        · exact Or.inl rfl
        · exact Or.inr (Or.inl rfl)
      · exact Or.inr (Or.inr ⟨pr, hpr, hs⟩)

/-- C3 amended.  In the continuous core an unpairable first player is set
aside as unmatched and the loop continues with the remaining players; in
the Swiss core the loop instead STOPS, leaving all remaining players
unpaired.  Completeness still holds in both variants: every waiting player
of the continuous variant is either named in an emitted pair or still on
the player sheet in its original row, and the Swiss pairing changes no
player's status at all (all ACTIVE players remain ACTIVE). -/
theorem C3_amended :
    (∀ (opp : String → List String) (p1 q : Player) (rest : List Player),
        pickOpponent Player.pid (opp p1.pid) (q :: rest) = none →
          contPairLoop Player.pid opp (p1 :: q :: rest) =
            ((contPairLoop Player.pid opp (q :: rest)).1,
              p1 :: (contPairLoop Player.pid opp (q :: rest)).2)) ∧
    (∀ (opp : String → List String) (p1 q : Player) (rest : List Player),
        pickOpponent Player.pid (opp p1.pid) (q :: rest) = none →
          swissPairLoop Player.pid opp (p1 :: q :: rest) =
            ([], q :: rest)) ∧
    (∀ (st : CState) p, p ∈ st.players → p.status = PStatus.waiting →
        (∃ pr ∈ ((matchPlayers st).1.inProg).drop st.inProg.length,
            p.pid = pr.1 ∨ p.pid = pr.2) ∨
          p ∈ (matchPlayers st).1.players) ∧
    (∀ (st : SState) (roundNumber now : Nat)
        (sh : List Player → List Player),
        ∀ p ∈ st.players,
          ∃ q ∈ (matchPlayersSwiss roundNumber now sh st).1.players,
            q.pid = p.pid ∧ q.status = p.status) := by
  refine ⟨?_, ?_, ?_, ?_⟩
  · intro opp p1 q rest h
    exact contPairLoop_cons_none h
  · intro opp p1 q rest h
    exact swissPairLoop_cons_none h
  · intro st p hp hw
    simp only [matchPlayers]
    split_ifs with h1 h2
    · exact Or.inr hp
    · exact Or.inr hp
    · by_cases hmem : p.pid ∈
        (contPairLoop Player.pid (getPastOpponents st.hist)
          (getWaitingPlayers st.players)).1.foldr
          (fun pr acc => pr.1 :: pr.2 :: acc) ([] : List String)
      · left
        simp only [List.drop_left]
        exact mem_pairIds.mp hmem
      · right
        simp only
        exact List.mem_map.mpr ⟨p, hp, by simp [hmem]⟩
  · intro st roundNumber now sh p hp
    simp only [matchPlayersSwiss]
    split_ifs with h1 hodd
    · exact ⟨p, hp, rfl, rfl⟩
    · rcases hb : (sortBy swissLe (st.players.filter
          (fun p => p.status = PStatus.active))).getLast? with _ | bp
      · exact ⟨p, hp, rfl, rfl⟩
      · exact recordByeResult_status bp.pid roundNumber _ now _ p hp
    · exact ⟨p, hp, rfl, rfl⟩

/-- C3 witness: at the concrete pool `exC3players` the continuous loop
sets P001 aside and pairs the remainder. -/
theorem C3_witness :
    contPairLoop Player.pid (swissOpp exC3hist) exC3players =
      ((contPairLoop Player.pid (swissOpp exC3hist)
          (exC3players.drop 1)).1,
        mkPlayer "P001" "Ann" 9 3 0 3 PStatus.active ::
          (contPairLoop Player.pid (swissOpp exC3hist)
            (exC3players.drop 1)).2) :=
  C3_amended.1 (swissOpp exC3hist)
    (mkPlayer "P001" "Ann" 9 3 0 3 PStatus.active)
    (mkPlayer "P002" "Bob" 0 0 1 1 PStatus.active)
    [mkPlayer "P003" "Cid" 0 0 1 1 PStatus.active,
     mkPlayer "P004" "Dee" 0 0 1 1 PStatus.active]
    (by decide)

-- =========================================
-- C7: startNewRound guard failures and the mutate-then-fail path
-- =========================================

/-- A completed round-1 state whose two active players have already faced
each other: the next round can only fail to pair. -/
def exC7 : SState :=
  { players := [mkPlayer "P001" "Ann" 3 1 0 1 PStatus.active,
                mkPlayer "P002" "Bob" 0 0 1 1 PStatus.active],
    hist := [mkHist "T0001" 1 1 "P001" "Ann" "P002" "Bob" "Ann" "Ann wins"],
    inProg := [{ round := 1, table := 1, p1 := "P001", n1 := "Ann",
                 p2 := "P002", n2 := "Bob", result := "Ann wins" }],
    currentRound := 1, maxTables := 50 }

/-- C7 counterexample.  The guards pass (round 1 is complete, two ACTIVE
players), the round sheet is cleared and the round counter incremented,
and only then does pairing return zero (the two players are past
opponents): `startNewRound` reports failure AFTER mutating state — the
round counter stands at 2.  (The pairing outcome is independent of the
shuffle here; the identity permutation instantiates it.) -/
theorem C7_counterexample :
    (startNewRound 9 id exC7).2 = false ∧
    (startNewRound 9 id exC7).1.currentRound = 2 ∧
    exC7.currentRound = 1 := by
  decide

/-- C7 amended.  `startNewRound` fails with the state untouched whenever
the previous round exists and is incomplete, or fewer than two ACTIVE
players remain; but when those guards pass and PAIRING then returns zero,
the failure is reported after the round sheet has been cleared, the round
counter incremented and (from round 2 on) the OMW metric recomputed. -/
theorem C7_amended (st : SState) (now : Nat)
    (sh : List Player → List Player)
    (h : (0 < st.currentRound ∧ ¬ isRoundComplete st = true) ∨
      (st.players.filter (fun p => p.status = PStatus.active)).length < 2) :
    startNewRound now sh st = (st, false) := by
  unfold startNewRound
  rcases h with ⟨h1, h2⟩ | hlen
  · rw [if_pos ⟨h1, h2⟩]
  · by_cases hg : 0 < st.currentRound ∧ ¬ isRoundComplete st = true
    · rw [if_pos hg]
    · rw [if_neg hg, if_pos hlen]

/-- A one-player state: too few ACTIVE players to start a round. -/
def exC7b : SState :=
  { players := [mkPlayer "P001" "Ann" 0 0 0 0 PStatus.active],
    hist := [], inProg := [], currentRound := 0, maxTables := 50 }

/-- C7 witness: with a single active player `startNewRound` fails and the
state is untouched. -/
theorem C7_witness : startNewRound 0 id exC7b = (exC7b, false) :=
  C7_amended exC7b 0 id (Or.inr (by decide))

-- =========================================
-- C8: the opponent-win-rate computation
-- =========================================

/-- Modelled from the spec: the OMW computation AS THE CLAIM STATES IT,
with dropped opponents excluded from the opponent set (everything else
exactly as `calculateOpponentWinRate` computes it).  This definition
follows the claim's words and exists only to be compared against the
code-derived `calculateOpponentWinRate`. -/
def omwSpecRate (players : List Player) (hist : List HistRow)
    (playerId : String) : Rat :=
  let opps := (omwOpponents hist playerId).filter (fun oid =>
    match players.find? (fun p => p.pid = oid) with
    | some p => decide (p.status ≠ PStatus.dropped)
    | none => true)
  if opps.isEmpty then OMW_FLOOR
  else
    let contribs := opps.filterMap (opponentContribution players)
    if contribs.isEmpty then OMW_FLOOR
    else contribs.sum / (contribs.length : Rat)

/-- A player whose only past opponent has dropped with a perfect record. -/
def exC8 : SState :=
  { players := [mkPlayer "P001" "Ann" 0 0 1 1 PStatus.active,
                mkPlayer "P002" "Bob" 3 1 0 1 PStatus.dropped],
    hist := [mkHist "T0001" 1 1 "P001" "Ann" "P002" "Bob" "Bob" "Bob wins"],
    inProg := [], currentRound := 1, maxTables := 50 }

/-- C8 counterexample.  The code never consults the status column: the
dropped opponent P002 (win rate 1) still counts, so the computed OMW of
P001 is 1, while the claim's formula — dropped opponents excluded, no
qualifying opponent left — gives the floor 0.333. -/
theorem C8_counterexample :
    calculateOpponentWinRate exC8.players exC8.hist "P001" = 1 ∧
    omwSpecRate exC8.players exC8.hist "P001" = OMW_FLOOR ∧
    calculateOpponentWinRate exC8.players exC8.hist "P001" ≠
      omwSpecRate exC8.players exC8.hist "P001" := by
  have hoc : opponentContribution exC8.players "P002" = some 1 := by
    unfold opponentContribution
    have hfind : exC8.players.find? (fun p => decide (p.pid = "P002")) =
        some (mkPlayer "P002" "Bob" 3 1 0 1 PStatus.dropped) := by
      rfl
    rw [hfind]
    norm_num [mkPlayer, OMW_FLOOR]
  have hopp : omwOpponents exC8.hist "P001" = ["P002"] := by rfl
  have h1 : calculateOpponentWinRate exC8.players exC8.hist "P001" = 1 := by
    unfold calculateOpponentWinRate
    rw [hopp]
    simp only [List.filterMap_cons, List.filterMap_nil, hoc]
    norm_num
  have h2 : omwSpecRate exC8.players exC8.hist "P001" = OMW_FLOOR := by
    rfl
  refine ⟨h1, h2, ?_⟩
  rw [h1, h2]
  norm_num [OMW_FLOOR]

theorem sum_ge_len_mul {c : Rat} :
    ∀ {l : List Rat}, (∀ x ∈ l, c ≤ x) → c * l.length ≤ l.sum := by
  intro l
  induction l with
  | nil => simp
  | cons x xs ih =>
    intro h
    have hx := h x (List.mem_cons_self _ _)
    have hxs := ih (fun y hy => h y (List.mem_cons_of_mem _ hy))
    simp only [List.sum_cons, List.length_cons]
    push_cast
    nlinarith

theorem opponentContribution_ge_floor {players : List Player} {oid : String}
    {x : Rat} (h : opponentContribution players oid = some x) :
    OMW_FLOOR ≤ x := by
  unfold opponentContribution at h
  split at h
  · split at h
    · cases h
      exact le_max_right _ _
    · cases h
  · cases h

theorem omwOpponents_ignores_byes (hist : List HistRow) (pid : String) :
    omwOpponents (hist.filter (fun r =>
      !(decide (r.result = "Bye") || decide (r.p2 = "")))) pid =
      omwOpponents hist pid := by
  unfold omwOpponents
  suffices h : ∀ acc : List String,
      (hist.filter (fun r =>
        !(decide (r.result = "Bye") || decide (r.p2 = "")))).foldl
        (fun acc row =>
          if row.result = "Bye" ∨ row.p2 = "" then acc
          else if row.p1 = pid then addUniq acc row.p2
          else if row.p2 = pid then addUniq acc row.p1
          else acc) acc =
      hist.foldl
        (fun acc row =>
          if row.result = "Bye" ∨ row.p2 = "" then acc
          else if row.p1 = pid then addUniq acc row.p2
          else if row.p2 = pid then addUniq acc row.p1
          else acc) acc by
    exact h []
  induction hist with
  | nil => intro acc; rfl
  | cons r hist ih =>
    intro acc
    by_cases hr : r.result = "Bye" ∨ r.p2 = ""
    · have hdrop : (!(decide (r.result = "Bye") || decide (r.p2 = ""))) =
          false := by
        rcases hr with h1 | h1 <;> simp [h1]
      simp only [List.filter_cons, hdrop, Bool.false_eq_true, if_false,
        List.foldl_cons, if_pos hr]
      exact ih acc
    · have hkeep : (!(decide (r.result = "Bye") || decide (r.p2 = ""))) =
          true := by
        push_neg at hr
        simp [hr.1, hr.2]
      simp only [List.filter_cons, hkeep, if_true, List.foldl_cons,
        if_neg hr]
      exact ih _

theorem opponentContribution_map_status (players : List Player)
    (f : Player → PStatus) (oid : String) :
    opponentContribution (players.map (fun p => { p with status := f p }))
        oid = opponentContribution players oid := by
  unfold opponentContribution
  rw [List.find?_map]
  have hpred : ((fun p => decide (p.pid = oid)) ∘
      (fun p => ({ p with status := f p } : Player))) =
      (fun p : Player => decide (p.pid = oid)) := by
    funext p
    rfl
  rw [hpred]
  cases h : players.find? (fun p => decide (p.pid = oid)) with
  | none => rfl
  | some p => rfl

/-- C8 amended.  The computed OMW is the average of each collected
opponent's win rate `wins/matchesPlayed` floored at 0.333, where the
opponent set comes from the non-bye history rows with a second player and
an opponent only counts when its player row exists with at least one game;
the result is never below the 0.333 floor, a player with no qualifying
opponent gets exactly the floor, bye rows never contribute — and the
status column is irrelevant: DROPPED opponents are NOT excluded. -/
theorem C8_amended :
    (∀ (players : List Player) (hist : List HistRow) (pid : String),
        OMW_FLOOR ≤ calculateOpponentWinRate players hist pid) ∧
    (∀ (players : List Player) (hist : List HistRow) (pid : String)
        (f : Player → PStatus),
        calculateOpponentWinRate
            (players.map (fun p => { p with status := f p })) hist pid =
          calculateOpponentWinRate players hist pid) ∧
    (∀ (players : List Player) (hist : List HistRow) (pid : String),
        calculateOpponentWinRate players (hist.filter (fun r =>
          !(decide (r.result = "Bye") || decide (r.p2 = "")))) pid =
          calculateOpponentWinRate players hist pid) ∧
    (∀ (players : List Player) (hist : List HistRow) (pid : String),
        (omwOpponents hist pid).filterMap
            (opponentContribution players) = [] →
          calculateOpponentWinRate players hist pid = OMW_FLOOR) := by
  refine ⟨?_, ?_, ?_, ?_⟩
  · intro players hist pid
    unfold calculateOpponentWinRate
    dsimp only
    split
    · exact le_refl _
    · split
      · exact le_refl _
      · rename_i hopps hcon
        set contribs := (omwOpponents hist pid).filterMap
          (opponentContribution players) with hc
        have hpos : 0 < (contribs.length : Rat) := by
          have : contribs ≠ [] := by
            intro h
            rw [h] at hcon
            simp at hcon
          have := List.length_pos.mpr this
          exact_mod_cast this
        rw [le_div_iff₀ hpos]
        refine le_trans (le_of_eq rfl) (sum_ge_len_mul ?_)
        intro x hx
        rcases List.mem_filterMap.mp hx with ⟨oid, _, hoid⟩
        exact opponentContribution_ge_floor hoid
  · intro players hist pid f
    unfold calculateOpponentWinRate
    dsimp only
    have hco : (omwOpponents hist pid).filterMap
        (opponentContribution (players.map
          (fun p => { p with status := f p }))) =
        (omwOpponents hist pid).filterMap
          (opponentContribution players) := by
      apply List.filterMap_congr
      intro oid _
      exact opponentContribution_map_status players f oid
    rw [hco]
  · intro players hist pid
    unfold calculateOpponentWinRate
    dsimp only
    rw [omwOpponents_ignores_byes]
  · intro players hist pid hnone
    unfold calculateOpponentWinRate
    dsimp only
    split
    · rfl
    · rw [hnone]
      simp

/-- C8 witness: with no history the OMW of any player is exactly the
floor, and the floor bound holds at the counterexample state. -/
theorem C8_witness :
    calculateOpponentWinRate exC8.players ([] : List HistRow) "P001" =
        OMW_FLOOR ∧
    OMW_FLOOR ≤ calculateOpponentWinRate exC8.players exC8.hist "P001" :=
  ⟨C8_amended.2.2.2 exC8.players [] "P001" (by decide),
    C8_amended.1 exC8.players exC8.hist "P001"⟩

-- =========================================
-- C5, C6: the table allocator
-- =========================================

/-- No two rows carrying a table number share it (free or occupied
alike). -/
def rowTablesDistinct (rows : List MRow) : Prop :=
  ∀ i j (hi : i < rows.length) (hj : j < rows.length), i ≠ j →
    (rows.get ⟨i, hi⟩).table ≠ 0 → (rows.get ⟨j, hj⟩).table ≠ 0 →
    (rows.get ⟨i, hi⟩).table ≠ (rows.get ⟨j, hj⟩).table

/-- Every carried table number is in `[MIN_TABLE_NUMBER, maxT]`. -/
def rowTablesInRange (maxT : Nat) (rows : List MRow) : Prop :=
  ∀ r ∈ rows, r.table ≠ 0 → MIN_TABLE_NUMBER ≤ r.table ∧ r.table ≤ maxT

/-- Every occupied row carries a table number. -/
def occupiedNumbered (rows : List MRow) : Prop :=
  ∀ r ∈ rows, r.p1 ≠ "" → r.table ≠ 0

/-- Invariant threaded through the seating loop: the three sheet
conditions, plus soundness of the free list (`avail` points at distinct
pre-snapshot rows that carry their table number and no player) and the
bounds tying the live sheet to the pre-loop snapshot length `n0` (fresh
rows are always written at index `n0`). -/
structure SheetInv (maxT n0 : Nat) (rows : List MRow)
    (avail : List (Nat × Nat)) : Prop where
  distinct : rowTablesDistinct rows
  inRange : rowTablesInRange maxT rows
  occNum : occupiedNumbered rows
  availOk : ∀ e ∈ avail, e.1 < n0 ∧ e.2 ≠ 0 ∧ ∃ h : e.1 < rows.length,
    (rows.get ⟨e.1, h⟩).table = e.2 ∧ (rows.get ⟨e.1, h⟩).p1 = ""
  availIdx : (avail.map Prod.fst).Nodup
  lenLB : n0 ≤ rows.length
  lenUB : rows.length ≤ n0 + 1

theorem writeAt_lt {l : List α} {i : Nat} (h : i < l.length)
    (blank : α) (f : α → α) :
    writeAt l i blank f = l.set i (f (l.get ⟨i, h⟩)) := by
  unfold writeAt
  rw [dif_pos h]

theorem writeAt_eq {l : List α} {i : Nat} (h : ¬ i < l.length)
    (blank : α) (f : α → α) :
    writeAt l i blank f = l ++ [f blank] := by
  unfold writeAt
  rw [dif_neg h]

theorem getNextAvailableTableNumber_spec {rows : List MRow}
    {maxT t : Nat}
    (h : getNextAvailableTableNumber rows maxT = some t) :
    MIN_TABLE_NUMBER ≤ t ∧ t ≤ maxT ∧ ∀ r ∈ rows, r.table ≠ t := by
  unfold getNextAvailableTableNumber at h
  have hmem := List.mem_of_find?_eq_some h
  have hpred := List.find?_some h
  rw [List.mem_range'_1] at hmem
  simp only [MIN_TABLE_NUMBER] at hmem ⊢
  have hall : ∀ r ∈ rows, ¬ r.table = t := by simpa using hpred
  exact ⟨hmem.1, by omega, fun r hr => hall r hr⟩

theorem SheetInv.write_avail {maxT n0 : Nat} {rows : List MRow}
    {avail : List (Nat × Nat)} (inv : SheetInv maxT n0 rows avail)
    {e : Nat × Nat} (he : e ∈ avail) {avail2 : List (Nat × Nat)}
    (hsub : avail2.Sublist avail)
    (hnotin : ∀ e2 ∈ avail2, e2.1 ≠ e.1) (a na b nb : String) :
    SheetInv maxT n0 (writeAt rows e.1 MRow.blank (fillRow a na b nb))
      avail2 := by
  obtain ⟨hlt0, hne0, hlt, htab, hp1⟩ := inv.availOk e he
  rw [writeAt_lt hlt]
  have hlen : (rows.set e.1
      (fillRow a na b nb (rows.get ⟨e.1, hlt⟩))).length = rows.length := by
    simp
  have htable : ∀ k (hk2 : k < rows.length)
      (hk : k < (rows.set e.1
        (fillRow a na b nb (rows.get ⟨e.1, hlt⟩))).length),
      (rows.set e.1 (fillRow a na b nb (rows.get ⟨e.1, hlt⟩)))[k].table =
        rows[k].table := by
    intro k hk2 hk
    rw [List.getElem_set]
    split
    · next heq => subst heq; rfl
    · rfl
  have hpother : ∀ k (hk2 : k < rows.length)
      (hk : k < (rows.set e.1
        (fillRow a na b nb (rows.get ⟨e.1, hlt⟩))).length), k ≠ e.1 →
      (rows.set e.1 (fillRow a na b nb (rows.get ⟨e.1, hlt⟩)))[k] =
        rows[k] := by
    intro k hk2 hk hke
    rw [List.getElem_set, if_neg (fun h => hke h.symm)]
  refine ⟨?_, ?_, ?_, ?_, ?_, ?_, ?_⟩
  · intro i j hi hj hij hti htj
    have hi2 : i < rows.length := by omega
    have hj2 : j < rows.length := by omega
    have hti2 := htable i hi2 hi
    have htj2 := htable j hj2 hj
    simp only [List.get_eq_getElem] at hti htj hti2 htj2 ⊢
    rw [hti2] at hti ⊢
    rw [htj2] at htj ⊢
    exact inv.distinct i j hi2 hj2 hij hti htj
  · intro r hr hrt
    rcases List.mem_iff_getElem.mp hr with ⟨k, hk, rfl⟩
    have hk2 : k < rows.length := by omega
    rw [htable k hk2 hk] at hrt ⊢
    exact inv.inRange rows[k] (List.getElem_mem hk2) hrt
  · intro r hr hrp
    rcases List.mem_iff_getElem.mp hr with ⟨k, hk, rfl⟩
    have hk2 : k < rows.length := by omega
    rw [htable k hk2 hk]
    by_cases hke : k = e.1
    · have hkt : rows[k].table = e.2 := by
        subst hke
        simpa [List.get_eq_getElem] using htab
      rw [hkt]
      exact hne0
    · rw [hpother k hk2 hk hke] at hrp
      exact inv.occNum rows[k] (List.getElem_mem hk2) hrp
  · intro e2 he2
    obtain ⟨h1, h2, h3, h4, h5⟩ := inv.availOk e2 (hsub.subset he2)
    have hne : ¬ e.1 = e2.1 := fun h => (hnotin e2 he2) h.symm
    refine ⟨h1, h2, by omega, ?_, ?_⟩
    · simp only [List.get_eq_getElem, List.getElem_set, hne, if_false]
      simpa [List.get_eq_getElem] using h4
    · simp only [List.get_eq_getElem, List.getElem_set, hne, if_false]
      simpa [List.get_eq_getElem] using h5
  · exact (hsub.map Prod.fst).nodup inv.availIdx
  · rw [hlen]
    exact inv.lenLB
  · rw [hlen]
    exact inv.lenUB

theorem SheetInv.write_fresh_set {maxT n0 : Nat} {rows : List MRow}
    (inv : SheetInv maxT n0 rows []) {t : Nat} {v : MRow}
    (hvt : v.table = t) (ht1 : MIN_TABLE_NUMBER ≤ t) (ht2 : t ≤ maxT)
    (hfresh : ∀ r ∈ rows, r.table ≠ t) (hn : n0 < rows.length) :
    SheetInv maxT n0 (rows.set n0 v) [] := by
  have hUB := inv.lenUB
  have htable : ∀ k (hk2 : k < rows.length)
      (hk : k < (rows.set n0 v).length),
      (rows.set n0 v)[k].table = if n0 = k then t else rows[k].table := by
    intro k hk2 hk
    rw [List.getElem_set]
    split
    · exact hvt
    · rfl
  refine ⟨?_, ?_, ?_, by simp, by simp,
    by simp only [List.length_set]; omega,
    by simp only [List.length_set]; omega⟩
  · intro i j hi hj hij hti htj
    have hi2 : i < rows.length := by simpa using hi
    have hj2 : j < rows.length := by simpa using hj
    simp only [List.get_eq_getElem] at hti htj ⊢
    rw [htable i hi2 hi] at hti ⊢
    rw [htable j hj2 hj] at htj ⊢
    by_cases hin : n0 = i
    · rw [if_pos hin] at hti ⊢
      rw [if_neg (by omega)] at htj ⊢
      exact fun h => hfresh rows[j] (List.getElem_mem hj2) h.symm
    · rw [if_neg hin] at hti ⊢
      by_cases hjn : n0 = j
      · rw [if_pos hjn] at htj ⊢
        exact fun h => hfresh rows[i] (List.getElem_mem hi2) h
      · rw [if_neg hjn] at htj ⊢
        exact inv.distinct i j hi2 hj2 hij hti htj
  · intro r hr hrt
    rcases List.mem_iff_getElem.mp hr with ⟨k, hk, rfl⟩
    have hk2 : k < rows.length := by simpa using hk
    rw [htable k hk2 hk] at hrt ⊢
    by_cases hkn : n0 = k
    · rw [if_pos hkn] at hrt ⊢
      exact ⟨ht1, ht2⟩
    · rw [if_neg hkn] at hrt ⊢
      exact inv.inRange rows[k] (List.getElem_mem hk2) hrt
  · intro r hr hrp
    rcases List.mem_iff_getElem.mp hr with ⟨k, hk, rfl⟩
    have hk2 : k < rows.length := by simpa using hk
    rw [htable k hk2 hk]
    by_cases hkn : n0 = k
    · rw [if_pos hkn]
      simp only [MIN_TABLE_NUMBER] at ht1
      omega
    · rw [if_neg hkn]
      have heq : (rows.set n0 v)[k] = rows[k] := by
        rw [List.getElem_set, if_neg hkn]
      rw [heq] at hrp
      exact inv.occNum rows[k] (List.getElem_mem hk2) hrp

theorem SheetInv.write_fresh_app {maxT n0 : Nat} {rows : List MRow}
    (inv : SheetInv maxT n0 rows []) {t : Nat} {v : MRow}
    (hvt : v.table = t) (ht1 : MIN_TABLE_NUMBER ≤ t) (ht2 : t ≤ maxT)
    (hfresh : ∀ r ∈ rows, r.table ≠ t) (hn0 : rows.length = n0) :
    SheetInv maxT n0 (rows ++ [v]) [] := by
  have htable : ∀ k (hk : k < (rows ++ [v]).length),
      (rows ++ [v])[k] = if h : k < rows.length then rows[k] else v := by
    intro k hk
    rw [List.getElem_append]
    split
    · rfl
    · simp
  refine ⟨?_, ?_, ?_, by simp, by simp, by simp; omega, by simp; omega⟩
  · intro i j hi hj hij hti htj
    simp only [List.get_eq_getElem] at hti htj ⊢
    rw [htable i hi] at hti ⊢
    rw [htable j hj] at htj ⊢
    simp only [List.length_append, List.length_singleton] at hi hj
    by_cases hi2 : i < rows.length
    · rw [dif_pos hi2] at hti ⊢
      by_cases hj2 : j < rows.length
      · rw [dif_pos hj2] at htj ⊢
        exact inv.distinct i j hi2 hj2 hij hti htj
      · rw [dif_neg hj2] at htj ⊢
        rw [hvt]
        exact hfresh rows[i] (List.getElem_mem hi2)
    · rw [dif_neg hi2] at hti ⊢
      have hj2 : j < rows.length := by omega
      rw [dif_pos hj2] at htj ⊢
      rw [hvt]
      exact fun h => hfresh rows[j] (List.getElem_mem hj2) h.symm
  · intro r hr hrt
    rcases List.mem_append.mp hr with h1 | h1
    · exact inv.inRange r h1 hrt
    · rcases List.mem_singleton.mp h1 with rfl
      rw [hvt]
      exact ⟨ht1, ht2⟩
  · intro r hr hrp
    rcases List.mem_append.mp hr with h1 | h1
    · exact inv.occNum r h1 hrp
    · rcases List.mem_singleton.mp h1 with rfl
      rw [hvt]
      simp only [MIN_TABLE_NUMBER] at ht1
      omega

theorem SheetInv.write_fresh {maxT n0 : Nat} {rows : List MRow}
    (inv : SheetInv maxT n0 rows []) {t : Nat}
    (hget : getNextAvailableTableNumber rows maxT = some t)
    (a na b nb : String) :
    SheetInv maxT n0 (writeAt rows n0 MRow.blank
      (fun r => fillRow a na b nb { r with table := t })) [] := by
  obtain ⟨ht1, ht2, hfresh⟩ := getNextAvailableTableNumber_spec hget
  by_cases hn : n0 < rows.length
  · rw [writeAt_lt hn]
    exact inv.write_fresh_set rfl ht1 ht2 hfresh hn
  · rw [writeAt_eq hn]
    have hn0 : rows.length = n0 := by
      have := inv.lenLB
      omega
    exact inv.write_fresh_app rfl ht1 ht2 hfresh hn0

/-- Distinct first components of a duplicate-free index list, getElem
form. -/
theorem nodup_fst_getElem_ne {l : List (Nat × Nat)} {i j : Nat}
    (hi : i < l.length) (hj : j < l.length)
    (nd : (l.map Prod.fst).Nodup) (hne : i ≠ j) :
    l[i].1 ≠ l[j].1 := by
  intro h
  have hi2 : i < (l.map Prod.fst).length := by simpa using hi
  have hj2 : j < (l.map Prod.fst).length := by simpa using hj
  have h2 := (@List.Nodup.getElem_inj_iff _ (l.map Prod.fst) nd i hi2 j hj2).mp
  simp only [List.getElem_map] at h2
  exact hne (h2 h)

/-- A successful `seatOne` step preserves the sheet invariant, with the
returned free list. -/
theorem seatOne_inv {maxT n0 : Nat} {players : List Player}
    {hist : List HistRow} {rows : List MRow} {avail : List (Nat × Nat)}
    {used : List Nat} {a na b nb : String}
    {out : List MRow × List (Nat × Nat) × List Nat}
    (inv : SheetInv maxT n0 rows avail)
    (h : seatOne maxT players hist n0 rows avail used a na b nb =
      some out) :
    SheetInv maxT n0 out.1 out.2.1 := by
  unfold seatOne at h
  dsimp only at h
  split at h
  next e avail2 heq =>
    injection h with h
    subst h
    split at heq
    · split at heq
      next k hk =>
        injection heq with heq
        have hklen := findFirstIdx_lt_length hk
        have hgetD : avail.getD k (0, 0) = avail[k] :=
          List.getD_eq_getElem avail (0, 0) hklen
        have hpair : (avail[k], avail.eraseIdx k) = (e, avail2) := by
          rw [← hgetD]
          exact heq
        rw [Prod.mk.injEq] at hpair
        obtain ⟨he1, he2⟩ := hpair
        subst he1
        subst he2
        have hnotin : ∀ e2 ∈ avail.eraseIdx k, e2.1 ≠ (avail[k]).1 := by
          intro e2 he2
          obtain ⟨i, hi, hik, hie⟩ := List.mem_eraseIdx_iff_getElem.mp he2
          rw [← hie]
          exact nodup_fst_getElem_ne hi hklen inv.availIdx hik
        exact inv.write_avail (List.getElem_mem hklen)
          (List.eraseIdx_sublist avail k) hnotin a na b nb
      next => exact absurd heq (by simp)
    · exact absurd heq (by simp)
  next hvl =>
    split at h
    next e avail2 =>
      injection h with h
      subst h
      have hnd := inv.availIdx
      simp only [List.map_cons, List.nodup_cons] at hnd
      have hnotin : ∀ e2 ∈ avail2, e2.1 ≠ e.1 := by
        intro e2 he2 hc
        exact hnd.1 (hc ▸ List.mem_map_of_mem Prod.fst he2)
      exact inv.write_avail (List.mem_cons_self e avail2)
        (List.sublist_cons_self e avail2) hnotin a na b nb
    next =>
      split at h
      next t hg =>
        injection h with h
        subst h
        exact inv.write_fresh hg a na b nb
      next => exact absurd h (by simp)

/-- State-complete version of the seating loop: the sheet, free list and
used list after seating a list of pairs, `none` as soon as one pair cannot
be seated.  `seatLoop` projects away the free and used lists; this variant
names the intermediate state the failure decomposition runs through. -/
def seatFold (maxT : Nat) (players : List Player) (hist : List HistRow)
    (n0 : Nat) : List (String × String) → List MRow → List (Nat × Nat) →
      List Nat → Option (List MRow × List (Nat × Nat) × List Nat)
  | [], rows, avail, used => some (rows, avail, used)
  | m :: ms, rows, avail, used =>
    match seatOne maxT players hist n0 rows avail used m.1
        (getPlayerName players m.1) m.2 (getPlayerName players m.2) with
    | some r3 => seatFold maxT players hist n0 ms r3.1 r3.2.1 r3.2.2
    | none => none

/-- The seating loop preserves the sheet invariant whether or not it runs
to completion. -/
theorem seatLoop_inv {maxT n0 : Nat} {players : List Player}
    {hist : List HistRow} (ms : List (String × String)) :
    ∀ (rows : List MRow) (avail : List (Nat × Nat)) (used : List Nat),
      SheetInv maxT n0 rows avail →
      ∃ avail2, SheetInv maxT n0
        (seatLoop maxT players hist n0 ms rows avail used).1 avail2 := by
  induction ms with
  | nil => exact fun rows avail used inv => ⟨avail, inv⟩
  | cons m ms ih =>
    intro rows avail used inv
    simp only [seatLoop]
    cases hso : seatOne maxT players hist n0 rows avail used m.1
        (getPlayerName players m.1) m.2 (getPlayerName players m.2) with
    | none => exact ⟨avail, inv⟩
    | some r3 => exact ih r3.1 r3.2.1 r3.2.2 (seatOne_inv inv hso)

/-- A failing seating run decomposes at the first unseatable pair: the
pairs before it were all seated (through `seatFold`), the pair itself
cannot be seated from the state so reached, and the loop keeps exactly the
writes made for the seated prefix. -/
theorem seatLoop_fail_prefix {maxT n0 : Nat} {players : List Player}
    {hist : List HistRow} (ms : List (String × String)) :
    ∀ (rows : List MRow) (avail : List (Nat × Nat)) (used : List Nat),
      (seatLoop maxT players hist n0 ms rows avail used).2 = false →
      ∃ pref m suff rows1 avail1 used1, ms = pref ++ m :: suff ∧
        seatFold maxT players hist n0 pref rows avail used =
          some (rows1, avail1, used1) ∧
        seatOne maxT players hist n0 rows1 avail1 used1 m.1
          (getPlayerName players m.1) m.2 (getPlayerName players m.2) =
          none ∧
        (seatLoop maxT players hist n0 ms rows avail used).1 = rows1 := by
  induction ms with
  | nil =>
    intro rows avail used hf
    simp [seatLoop] at hf
  | cons m ms ih =>
    intro rows avail used hf
    simp only [seatLoop] at hf
    cases hso : seatOne maxT players hist n0 rows avail used m.1
        (getPlayerName players m.1) m.2 (getPlayerName players m.2) with
    | none =>
      refine ⟨[], m, ms, rows, avail, used, rfl, rfl, hso, ?_⟩
      simp only [seatLoop, hso]
    | some r3 =>
      rw [hso] at hf
      obtain ⟨pref, m2, suff, rows1, avail1, used1, hdec, hfold, hone,
        hres⟩ := ih r3.1 r3.2.1 r3.2.2 hf
      refine ⟨m :: pref, m2, suff, rows1, avail1, used1, by rw [hdec]; rfl,
        ?_, hone, ?_⟩
      · simp only [seatFold, hso]
        exact hfold
      · simp only [seatLoop, hso]
        exact hres

/-- Every free-list entry built by `collectAvail` points at a row of the
sheet that carries its table number and no player-1 id. -/
theorem collectAvail_mem {rows : List MRow} {e : Nat × Nat}
    (he : e ∈ collectAvail rows) :
    ∃ h : e.1 < rows.length, (rows.get ⟨e.1, h⟩).table = e.2 ∧
      (rows.get ⟨e.1, h⟩).p1 = "" ∧ e.2 ≠ 0 := by
  unfold collectAvail at he
  rcases List.mem_filterMap.mp he with ⟨x, hx, hfx⟩
  rcases List.mem_iff_getElem.mp hx with ⟨i, hi, hxe⟩
  have hi2 : i < rows.length := by
    simpa [List.length_zip] using hi
  rw [List.getElem_zip] at hxe
  subst hxe
  simp only [List.getElem_range] at hfx
  split at hfx
  next hc =>
    have hpair : (i, rows[i].table) = e := by
      injection hfx
    subst hpair
    exact ⟨hi2, rfl, hc.2, hc.1⟩
  next => exact absurd hfx (by simp)

/-- Mapping the first component over a first-component-preserving
`filterMap` yields a sublist of the input's first components. -/
theorem filterMap_fst_sublist {β γ : Type} (f : Nat × β → Option (Nat × γ))
    (hf : ∀ x y, f x = some y → y.1 = x.1) :
    ∀ l : List (Nat × β),
      ((l.filterMap f).map Prod.fst).Sublist (l.map Prod.fst)
  | [] => by simp
  | x :: l => by
    simp only [List.filterMap_cons]
    cases hfx : f x with
    | none =>
      simp only [List.map_cons]
      exact (filterMap_fst_sublist f hf l).cons x.1
    | some y =>
      simp only [List.map_cons]
      rw [hf x y hfx]
      exact (filterMap_fst_sublist f hf l).cons₂ x.1

/-- The row indices on the free list are pairwise distinct. -/
theorem collectAvail_idx_nodup (rows : List MRow) :
    ((collectAvail rows).map Prod.fst).Nodup := by
  have hsub := filterMap_fst_sublist (fun e : Nat × MRow =>
      if e.2.table ≠ 0 ∧ e.2.p1 = "" then some (e.1, e.2.table) else none)
    (fun x y hy => by
      dsimp only at hy
      split at hy
      · injection hy with hy
        rw [← hy]
      · exact absurd hy (by simp))
    ((List.range rows.length).zip rows)
  have hmapfst : ((List.range rows.length).zip rows).map Prod.fst =
      List.range rows.length := by
    apply List.map_fst_zip
    simp
  rw [hmapfst] at hsub
  exact List.Nodup.sublist hsub (List.nodup_range _)

/-- The pre-loop snapshot: a sheet satisfying the three claimed conditions
yields the full invariant, with `collectAvail` as the free list and the
sheet length as the fresh-row index. -/
theorem SheetInv.initial {maxT : Nat} {rows : List MRow}
    (hd : rowTablesDistinct rows) (hr : rowTablesInRange maxT rows)
    (ho : occupiedNumbered rows) :
    SheetInv maxT rows.length rows (collectAvail rows) := by
  refine ⟨hd, hr, ho, ?_, collectAvail_idx_nodup rows, Nat.le_refl _,
    Nat.le_succ _⟩
  intro e he
  obtain ⟨h, h1, h2, h3⟩ := collectAvail_mem he
  exact ⟨h, h3, h, h1, h2⟩

/-- `matchPlayers` (match-manager.js) preserves the three sheet
conditions of the table-uniqueness invariant, even when seating fails
partway. -/
theorem managerMatchPlayers_inv (st : MState)
    (hd : rowTablesDistinct st.inProg)
    (hr : rowTablesInRange st.maxTables st.inProg)
    (ho : occupiedNumbered st.inProg) :
    rowTablesDistinct (managerMatchPlayers st).1.inProg ∧
    rowTablesInRange st.maxTables (managerMatchPlayers st).1.inProg ∧
    occupiedNumbered (managerMatchPlayers st).1.inProg := by
  unfold managerMatchPlayers
  dsimp only
  split
  · exact ⟨hd, hr, ho⟩
  · split
    · exact ⟨hd, hr, ho⟩
    · obtain ⟨avail2, inv2⟩ := seatLoop_inv (managerPairs st) st.inProg
        (collectAvail st.inProg) (collectUsed st.inProg)
        (SheetInv.initial hd hr ho)
      split
      · exact ⟨inv2.distinct, inv2.inRange, inv2.occNum⟩
      · exact ⟨inv2.distinct, inv2.inRange, inv2.occNum⟩

/-- `matchPlayers` (match-manager.js) reports either every emitted pair or
none at all: a seating failure zeroes the reported count no matter how
many pairs were seated. -/
theorem managerMatchPlayers_ret (st : MState) :
    (managerMatchPlayers st).2 = (managerPairs st).length ∨
    (managerMatchPlayers st).2 = 0 := by
  unfold managerMatchPlayers
  dsimp only
  split
  · exact Or.inr rfl
  · split
    · exact Or.inr rfl
    · split
      · exact Or.inl rfl
      · exact Or.inr rfl

/-- Past the guards, `matchPlayers` (match-manager.js) marks every player
named in an emitted pair 対戦中, whether or not its seating succeeded. -/
theorem managerMatchPlayers_players (st : MState)
    (h1 : ¬ (getWaitingPlayers st.players).length < 2)
    (h2 : managerPairs st ≠ []) :
    (managerMatchPlayers st).1.players = st.players.map (fun p =>
      if p.pid ∈ (managerPairs st).foldr
          (fun pr acc => pr.1 :: pr.2 :: acc) ([] : List String) then
        { p with status := PStatus.inProgress } else p) := by
  unfold managerMatchPlayers
  dsimp only
  rw [if_neg h1, if_neg h2]
  split
  · rfl
  · rfl

/-- Mapping `c + first` over a list zipped with the index range yields the
consecutive range from `c`. -/
theorem zip_range_map_fst_add {α : Type} (c : Nat) (l : List α) :
    ((List.range l.length).zip l).map (fun e => c + e.1) =
      List.range' c l.length := by
  apply List.ext_getElem
  · simp [List.length_zip]
  · intro i h1 h2
    simp [List.getElem_zip, List.getElem_range, List.getElem_range']

/-- The seated Swiss rows carry the consecutive table numbers starting at
`MIN_TABLE_NUMBER`. -/
theorem seatSwissPairs_tables (st : SState) (rn : Nat)
    (ms : List (String × String)) :
    (seatSwissPairs st rn ms).map RoundRow.table =
      List.range' MIN_TABLE_NUMBER ms.length := by
  unfold seatSwissPairs
  rw [List.map_map]
  exact zip_range_map_fst_add MIN_TABLE_NUMBER ms

theorem seatSwissPairs_length (st : SState) (rn : Nat)
    (ms : List (String × String)) :
    (seatSwissPairs st rn ms).length = ms.length := by
  unfold seatSwissPairs
  simp [List.length_zip]

/-- On the cleared sheet `matchPlayersSwiss` writes to, the table column
reads `MIN_TABLE_NUMBER, MIN_TABLE_NUMBER + 1, …` — one number per row,
bye row included, with no reference to the configured table cap. -/
theorem matchPlayersSwiss_tables (roundNumber now : Nat)
    (sh : List Player → List Player) (st : SState)
    (h0 : st.inProg = []) :
    (matchPlayersSwiss roundNumber now sh st).1.inProg.map RoundRow.table =
      List.range' MIN_TABLE_NUMBER
        (matchPlayersSwiss roundNumber now sh st).1.inProg.length := by
  unfold matchPlayersSwiss
  dsimp only
  split
  · rw [h0]
    rfl
  · split
    next =>
      dsimp only
      rw [h0]
      simp only [List.nil_append]
      rw [seatSwissPairs_tables, seatSwissPairs_length]
    next bp =>
      dsimp only
      rw [recordByeResult_inProg]
      dsimp only
      rw [h0]
      simp only [List.nil_append]
      rw [List.map_append, seatSwissPairs_tables, List.length_append,
        seatSwissPairs_length]
      simp [swissByeRow, List.range'_concat]

/-- Scenario D fixture: four fresh waiting players, an empty sheet and a
single-table cap in the table-numbered continuous variant. -/
def exC5 : MState :=
  { players := [mkPlayer "P001" "Alice" 0 0 0 0 PStatus.waiting,
      mkPlayer "P002" "Bob" 0 0 0 0 PStatus.waiting,
      mkPlayer "P003" "Carol" 0 0 0 0 PStatus.waiting,
      mkPlayer "P004" "Dave" 0 0 0 0 PStatus.waiting],
    hist := [], inProg := [], maxTables := 1 }

/-- Swiss fixture for the table-range check: four fresh active players, an
empty sheet and a single-table cap. -/
def exC6 : SState :=
  { players := [mkPlayer "P001" "Alice" 0 0 0 0 PStatus.active,
      mkPlayer "P002" "Bob" 0 0 0 0 PStatus.active,
      mkPlayer "P003" "Carol" 0 0 0 0 PStatus.active,
      mkPlayer "P004" "Dave" 0 0 0 0 PStatus.active],
    hist := [], inProg := [], currentRound := 0, maxTables := 1 }

/-- C5 counterexample (match-manager.js, Scenario D): one table and two
pairs ready.  The first pair is seated, yet the invocation reports 0
matches — not one — and all four paired players, the capacity-skipped
pair's included, are in 対戦中 rather than back in the waiting pool. -/
theorem C5_counterexample :
    (managerPairs exC5).length = 2 ∧
    (managerMatchPlayers exC5).2 = 0 ∧
    (managerMatchPlayers exC5).1.inProg.length = 1 ∧
    ∀ p ∈ (managerMatchPlayers exC5).1.players,
      p.status = PStatus.inProgress := by
  decide

/-- C5: a capacity failure stops the seating loop at the FIRST unseatable
pair — the earlier pairs are seated and those writes kept — but the whole
invocation then reports zero matches, and every player named in an emitted
pair (seated or skipped) has already been marked 対戦中. -/
theorem C5_amended :
    (∀ (maxT n0 : Nat) (players : List Player) (hist : List HistRow)
      (ms : List (String × String)) (rows : List MRow)
      (avail : List (Nat × Nat)) (used : List Nat),
      (seatLoop maxT players hist n0 ms rows avail used).2 = false →
      ∃ pref m suff rows1 avail1 used1, ms = pref ++ m :: suff ∧
        seatFold maxT players hist n0 pref rows avail used =
          some (rows1, avail1, used1) ∧
        seatOne maxT players hist n0 rows1 avail1 used1 m.1
          (getPlayerName players m.1) m.2 (getPlayerName players m.2) =
          none ∧
        (seatLoop maxT players hist n0 ms rows avail used).1 = rows1) ∧
    (∀ st : MState, (managerMatchPlayers st).2 = (managerPairs st).length ∨
      (managerMatchPlayers st).2 = 0) ∧
    (∀ st : MState, ¬ (getWaitingPlayers st.players).length < 2 →
      managerPairs st ≠ [] →
      (managerMatchPlayers st).1.players = st.players.map (fun p =>
        if p.pid ∈ (managerPairs st).foldr
            (fun pr acc => pr.1 :: pr.2 :: acc) ([] : List String) then
          { p with status := PStatus.inProgress } else p)) :=
  ⟨fun _ _ _ _ ms rows avail used hf =>
      seatLoop_fail_prefix ms rows avail used hf,
    managerMatchPlayers_ret,
    managerMatchPlayers_players⟩

/-- C5 witness: the amended statement instantiated at the Scenario D
fixture, whose seating run fails on its second pair. -/
theorem C5_witness :
    (∃ pref m suff rows1 avail1 used1,
      managerPairs exC5 = pref ++ m :: suff ∧
      seatFold exC5.maxTables exC5.players exC5.hist exC5.inProg.length
        pref exC5.inProg (collectAvail exC5.inProg)
        (collectUsed exC5.inProg) = some (rows1, avail1, used1) ∧
      seatOne exC5.maxTables exC5.players exC5.hist exC5.inProg.length
        rows1 avail1 used1 m.1 (getPlayerName exC5.players m.1) m.2
        (getPlayerName exC5.players m.2) = none ∧
      (seatLoop exC5.maxTables exC5.players exC5.hist exC5.inProg.length
        (managerPairs exC5) exC5.inProg (collectAvail exC5.inProg)
        (collectUsed exC5.inProg)).1 = rows1) ∧
    ((managerMatchPlayers exC5).2 = (managerPairs exC5).length ∨
      (managerMatchPlayers exC5).2 = 0) ∧
    (managerMatchPlayers exC5).1.players = exC5.players.map (fun p =>
      if p.pid ∈ (managerPairs exC5).foldr
          (fun pr acc => pr.1 :: pr.2 :: acc) ([] : List String) then
        { p with status := PStatus.inProgress } else p) :=
  ⟨C5_amended.1 exC5.maxTables exC5.inProg.length exC5.players exC5.hist
      (managerPairs exC5) exC5.inProg (collectAvail exC5.inProg)
      (collectUsed exC5.inProg) (by decide),
    C5_amended.2.1 exC5,
    C5_amended.2.2 exC5 (by decide) (by decide)⟩

/-- C6 counterexample: one configured table, four active Swiss players —
the second pair is seated at table 2, outside `[1, maxTables]`. -/
theorem C6_counterexample :
    exC6.maxTables = 1 ∧
    ∃ row ∈ (matchPlayersSwiss 1 0 id exC6).1.inProg,
      exC6.maxTables < row.table := by
  decide

/-- C6: the variant with a table allocator (match-manager.js) preserves
table uniqueness, the `[MIN_TABLE_NUMBER, maxTables]` range and the
numbering of occupied rows; the Swiss variant rebuilds the cleared sheet
with consecutive, hence pairwise distinct, table numbers — but that
numbering never consults `maxTables`. -/
theorem C6_amended :
    (∀ st : MState, rowTablesDistinct st.inProg →
      rowTablesInRange st.maxTables st.inProg →
      occupiedNumbered st.inProg →
      rowTablesDistinct (managerMatchPlayers st).1.inProg ∧
      rowTablesInRange st.maxTables (managerMatchPlayers st).1.inProg ∧
      occupiedNumbered (managerMatchPlayers st).1.inProg) ∧
    (∀ (roundNumber now : Nat) (sh : List Player → List Player)
      (st : SState), st.inProg = [] →
      (matchPlayersSwiss roundNumber now sh st).1.inProg.map
          RoundRow.table =
        List.range' MIN_TABLE_NUMBER
          (matchPlayersSwiss roundNumber now sh st).1.inProg.length) :=
  ⟨managerMatchPlayers_inv, matchPlayersSwiss_tables⟩

/-- C6 witness: the manager half at the Scenario D fixture (empty sheet),
the Swiss half at the four-player fixture. -/
theorem C6_witness :
    (rowTablesDistinct (managerMatchPlayers exC5).1.inProg ∧
      rowTablesInRange exC5.maxTables (managerMatchPlayers exC5).1.inProg ∧
      occupiedNumbered (managerMatchPlayers exC5).1.inProg) ∧
    (matchPlayersSwiss 1 0 id exC6).1.inProg.map RoundRow.table =
      List.range' MIN_TABLE_NUMBER
        (matchPlayersSwiss 1 0 id exC6).1.inProg.length :=
  ⟨C6_amended.1 exC5
      (fun i j hi => absurd hi (by simp [exC5]))
      (fun r hr => absurd hr (by simp [exC5]))
      (fun r hr => absurd hr (by simp [exC5])),
    C6_amended.2 1 0 id exC6 rfl⟩

end SwissDraw
